import Mathlib

/-! # dml-go: scalar conversions (`pkg/dml/dmlutil.go`)

A shallow embedding of the conversion and validation functions of
`dmlutil.go` (timestamps, decimals, GUIDs) together with the parts of the Go
standard library they call (`unicode/utf8`, `regexp`, `encoding/hex`,
`strconv`, `time`), and theorems about them.

Conventions of the embedding:

* a Go `string` / `[]byte` is a list of bytes, `len` is `List.length`,
  `s[a:b]` is `slice s a b`;
* a Go pointer result that may be `nil` is an `Option`; a Go `error` result is
  an `Option Error` (`none` is the `nil` error);
* `int64` / `uint64` values are integers, wrapped explicitly where the Go code
  relies on, or could meet, wrap-around.
-/

namespace Dml

/-! ## Bytes, strings, runes -/

/-- A Go `byte` (`uint8`). -/
abbrev Byte := Fin 256

/-- A Go `string` (also used for `[]byte`): a finite sequence of bytes. A Go
`rune` (a Unicode code point) is a natural number. -/
abbrev GoString := List Byte

/-- The Go slice expression `s[a:b]` (for `a ≤ b ≤ len(s)`). -/
def slice (s : GoString) (a b : Nat) : GoString := (s.drop a).take (b - a)

/-- The bytes of an ASCII literal, one byte per character. -/
def ascii (s : String) : GoString := s.toList.map (fun c => Fin.ofNat c.toNat)

/-! ## `unicode/utf8`: decoding one rune -/

/-- Constant `utf8.RuneError` (U+FFFD). -/
def RuneError : Nat := 0xFFFD

/-- Table `utf8.first`: information about the first byte of a UTF-8 sequence
(`as = 0xF0` ASCII, `xx = 0xF1` invalid, otherwise accept-range index in the
high nibble and size in the low nibble). -/
def first (b : Byte) : Nat :=
  if b.val < 0x80 then 0xF0
  else if b.val < 0xC2 then 0xF1
  else if b.val < 0xE0 then 0x02
  else if b.val = 0xE0 then 0x13
  else if b.val < 0xED then 0x03
  else if b.val = 0xED then 0x23
  else if b.val < 0xF0 then 0x03
  else if b.val = 0xF0 then 0x34
  else if b.val < 0xF4 then 0x04
  else if b.val = 0xF4 then 0x44
  else 0xF1

/-- Table `utf8.acceptRanges`: allowed range `(lo, hi)` of the second byte. -/
def acceptRanges (i : Nat) : Nat × Nat :=
  match i with
  | 0 => (0x80, 0xBF)
  | 1 => (0xA0, 0xBF)
  | 2 => (0x80, 0x9F)
  | 3 => (0x90, 0xBF)
  | 4 => (0x80, 0x8F)
  | _ => (0, 0)

/-- Function `utf8.DecodeRuneInString`: the first rune of `s` and its width in
bytes; an invalid or truncated encoding gives `(RuneError, 1)`, the empty
string `(RuneError, 0)`. For a first byte of class `as` or `xx` the Go code
selects `s[0]` or `RuneError` with a mask; the bytes `s[1]`, `s[2]`, `s[3]`
are read only after the length check `n < sz`. -/
def DecodeRuneInString (s : GoString) : Nat × Nat :=
  match s with
  | [] => (RuneError, 0)
  | s0 :: _ =>
    let x := first s0
    if x ≥ 0xF0 then
      (if x = 0xF0 then s0.val else RuneError, 1)
    else
      let sz := x &&& 7
      let accept := acceptRanges (x >>> 4)
      if s.length < sz then (RuneError, 1)
      else
        let s1 := (s.getD 1 0).val
        if s1 < accept.1 ∨ accept.2 < s1 then (RuneError, 1)
        else if sz ≤ 2 then
          (((s0.val &&& 0x1F) <<< 6) ||| (s1 &&& 0x3F), 2)
        else
          let s2 := (s.getD 2 0).val
          if s2 < 0x80 ∨ 0xBF < s2 then (RuneError, 1)
          else if sz ≤ 3 then
            (((s0.val &&& 0x0F) <<< 12) ||| ((s1 &&& 0x3F) <<< 6) ||| (s2 &&& 0x3F), 3)
          else
            let s3 := (s.getD 3 0).val
            if s3 < 0x80 ∨ 0xBF < s3 then (RuneError, 1)
            else
              (((s0.val &&& 0x07) <<< 18) ||| ((s1 &&& 0x3F) <<< 12)
                ||| ((s2 &&& 0x3F) <<< 6) ||| (s3 &&& 0x3F), 4)

/-- Loop of the regexp input reader (`inputString.step` at each position):
`fuel` bounds the number of runes still to read. -/
def decodeRunesAux : Nat → GoString → List Nat
  | 0, _ => []
  | _, [] => []
  | fuel + 1, s0 :: t =>
    let rw := DecodeRuneInString (s0 :: t)
    rw.1 :: decodeRunesAux fuel ((s0 :: t).drop rw.2)

/-- The runes a Go string is read as, left to right. -/
def decodeRunes (s : GoString) : List Nat := decodeRunesAux s.length s

/-! ## `regexp`: syntax, semantics and a matcher -/

/-- Single-rune operators of `regexp/syntax`. -/
inductive CharSet where
  /-- A literal rune (`OpLiteral`). -/
  | literal (r : Nat)
  /-- A character class given by inclusive ranges (`OpCharClass`). -/
  | charClass (ranges : List (Nat × Nat))
  /-- The dot without the `s` flag (`OpAnyCharNotNL`). -/
  | anyCharNotNL

/-- Whether a single-rune operator accepts the rune. -/
def CharSet.has : CharSet → Nat → Bool
  | .literal c, r => r == c
  | .charClass ranges, r => ranges.any (fun lh => decide (lh.1 ≤ r ∧ r ≤ lh.2))
  | .anyCharNotNL, r => r != 0x0A

/-- Regular expressions (the body between `^` and `$`). -/
inductive Regexp where
  | noMatch
  | emptyMatch
  | single (c : CharSet)
  | concat (a b : Regexp)
  | alternate (a b : Regexp)
  | star (a : Regexp)

namespace Regexp

/-- Operator `x+`. -/
def plus (a : Regexp) : Regexp := concat a (star a)

/-- Operator `x?`. -/
def quest (a : Regexp) : Regexp := alternate a emptyMatch

/-- Operator `x{n}`. -/
def repeatN : Nat → Regexp → Regexp
  | 0, _ => emptyMatch
  | n + 1, a => concat a (repeatN n a)

/-- The language of a regular expression: `Matches re w` when the rune
sequence `w` as a whole is matched by `re`. -/
inductive Matches : Regexp → List Nat → Prop
  | emptyMatch : Matches emptyMatch []
  | single {c : CharSet} {r : Nat} : c.has r = true → Matches (single c) [r]
  | concat {a b : Regexp} {u v : List Nat} :
      Matches a u → Matches b v → Matches (concat a b) (u ++ v)
  | alternateLeft {a b : Regexp} {u : List Nat} :
      Matches a u → Matches (alternate a b) u
  | alternateRight {a b : Regexp} {u : List Nat} :
      Matches b u → Matches (alternate a b) u
  | starNil {a : Regexp} : Matches (star a) []
  | starCons {a : Regexp} {u v : List Nat} :
      Matches a u → Matches (star a) v → Matches (star a) (u ++ v)

/-- Whether the expression matches the empty sequence. -/
def nullable : Regexp → Bool
  | noMatch => false
  | emptyMatch => true
  | single _ => false
  | concat a b => nullable a && nullable b
  | alternate a b => nullable a || nullable b
  | star _ => true

/-- The expression matching what is left after reading `r`. -/
def deriv : Regexp → Nat → Regexp
  | noMatch, _ => noMatch
  | emptyMatch, _ => noMatch
  | single c, r => if c.has r then emptyMatch else noMatch
  | concat a b, r =>
    if nullable a then alternate (concat (deriv a r) b) (deriv b r)
    else concat (deriv a r) b
  | alternate a b, r => alternate (deriv a r) (deriv b r)
  | star a, r => concat (deriv a r) (star a)

/-- Executable whole-sequence matcher. -/
def fullMatch : Regexp → List Nat → Bool
  | re, [] => nullable re
  | re, r :: w => fullMatch (deriv re r) w

end Regexp

/-- Method `(*Regexp).MatchString` for a pattern `^body$` compiled without
flags: with both anchors, the text contains a match exactly when the whole
text, read as runes, is matched by `body`. -/
def MatchString (body : Regexp) (s : GoString) : Bool :=
  body.fullMatch (decodeRunes s)

/-! ## `encoding/hex` -/

/-- Errors returned by the functions of this file. -/
inductive Error where
  /-- Package variable `invalidDecimalError`. -/
  | invalidDecimalError
  /-- Package variable `invalidGuidError`. -/
  | invalidGuidError
  /-- Error `hex.InvalidByteError(b)`. -/
  | hexInvalidByte (b : Byte)
  /-- Error `hex.ErrLength`. -/
  | hexErrLength
  /-- Error `strconv.ErrSyntax` (wrapped in a `*NumError`). -/
  | errSyntax
  /-- Error `strconv.ErrRange` (wrapped in a `*NumError`). -/
  | errRange
  /-- Error of `uuid.FromBytes`: `invalid UUID (got n bytes)`. -/
  | uuidInvalidLength (n : Nat)
  /-- Errors of `decimal.NewFromString`: `can't convert ... to decimal` with
  its variants (exponent not numeric, fractional part too long, too many
  dots). -/
  | decimalCantConvert
  deriving DecidableEq, Repr

/-- Function `hex.fromHexChar`: the value of a hexadecimal digit, `none` for
any other byte. -/
def fromHexChar (c : Byte) : Option Byte :=
  if 0x30 ≤ c.val ∧ c.val ≤ 0x39 then some (Fin.ofNat (c.val - 0x30))
  else if 0x61 ≤ c.val ∧ c.val ≤ 0x66 then some (Fin.ofNat (c.val - 0x61 + 10))
  else if 0x41 ≤ c.val ∧ c.val ≤ 0x46 then some (Fin.ofNat (c.val - 0x41 + 10))
  else none

/-- Function `hex.Decode` on the source bytes: the decoded bytes written so
far and the error. It reads two characters per output byte and reports the
first invalid character, or `ErrLength` for a dangling last character. -/
def hexDecode : GoString → List Byte × Option Error
  | [] => ([], none)
  | [p] =>
    match fromHexChar p with
    | none => ([], some (.hexInvalidByte p))
    | some _ => ([], some .hexErrLength)
  | p :: q :: rest =>
    match fromHexChar p with
    | none => ([], some (.hexInvalidByte p))
    | some a =>
      match fromHexChar q with
      | none => ([], some (.hexInvalidByte q))
      | some b =>
        let r := hexDecode rest
        (Fin.ofNat ((a.val <<< 4) ||| b.val) :: r.1, r.2)

/-- Function `hex.DecodeString`. -/
def DecodeString (s : GoString) : List Byte × Option Error := hexDecode s

/-- Constant `hex.hextable = "0123456789abcdef"`, indexed. -/
def hextable (i : Nat) : Byte :=
  if i < 10 then Fin.ofNat (0x30 + i) else Fin.ofNat (0x61 + (i - 10))

/-- Function `hex.EncodeToString`: two lowercase digits per byte. -/
def EncodeToString (src : List Byte) : GoString :=
  src.flatMap (fun v => [hextable (v.val >>> 4), hextable (v.val &&& 0x0F)])

/-! ## GUID -/

set_option linter.dupNamespace false in
/-- Message `dml.Guid`: the field `Guid []byte`. -/
structure Guid where
  Guid : List Byte
  deriving DecidableEq, Repr

/-- Pattern `validGuid = ^[0-9a-fA-F]{32}$` (body). -/
def validGuid : Regexp :=
  Regexp.repeatN 32
    (.single (.charClass [(0x30, 0x39), (0x61, 0x66), (0x41, 0x46)]))

/-- Function `GuidFromBytes`. -/
def GuidFromBytes (b : List Byte) : Option Guid × Option Error :=
  if b.length ≠ 16 then (none, some .invalidGuidError)
  else (some { Guid := b }, none)

/-- Function `GuidFromString`. -/
def GuidFromString (s : GoString) : Option Guid × Option Error :=
  if !MatchString validGuid s then (none, some .invalidGuidError)
  else
    let be := DecodeString s
    match be.2 with
    | some err => (none, some err)
    | none => (some { Guid := be.1 }, none)

/-! ## Decimal -/

/-- Message `dml.Decimal`: the field `Plaintext string`. -/
structure Decimal where
  Plaintext : GoString
  deriving DecidableEq, Repr

/-- Character class `\d` (ASCII digits). -/
def digitClass : Regexp := .single (.charClass [(0x30, 0x39)])

/-- Pattern `validDecimal = ^(\+-)?\d+(.\d+)$` (body). -/
def validDecimal : Regexp :=
  .concat (Regexp.quest (.concat (.single (.literal 0x2B)) (.single (.literal 0x2D))))
    (.concat (Regexp.plus digitClass)
      (.concat (.single .anyCharNotNL) (Regexp.plus digitClass)))

/-- Function `DecimalFromString`. -/
def DecimalFromString (s : GoString) : Option Decimal × Option Error :=
  if MatchString validDecimal s then (some { Plaintext := s }, none)
  else (none, some .invalidDecimalError)

/-- Method `(*Decimal).StringFromDecimal`. -/
def Decimal.StringFromDecimal (m : Decimal) : GoString := m.Plaintext

/-! ## `strconv.Atoi` -/

/-- Digit loop of the fast path of `strconv.Atoi`: `ch -= '0'` in `byte`
arithmetic, a syntax error (`none`) when the result exceeds 9, otherwise
`n = n*10 + int(ch)`. -/
def atoiLoop : GoString → Int → Option Int
  | [], n => some n
  | ch :: t, n =>
    let d := (ch.val + 256 - 0x30) % 256
    if d > 9 then none else atoiLoop t (n * 10 + d)

/-- Digit loop of `strconv.ParseUint(s, 10, 64)`: a byte that is not a decimal
digit is a syntax error, a value beyond `2^64 - 1` a range error reported as
soon as it is met. -/
def parseUintLoop : GoString → Nat → Nat × Option Error
  | [], n => (n, none)
  | c :: t, n =>
    if 0x30 ≤ c.val ∧ c.val ≤ 0x39 then
      if n ≥ 18446744073709551615 / 10 + 1 then (18446744073709551615, some .errRange)
      else if n * 10 + (c.val - 0x30) > 18446744073709551615 then
        (18446744073709551615, some .errRange)
      else parseUintLoop t (n * 10 + (c.val - 0x30))
    else (0, some .errSyntax)

/-- Function `strconv.ParseInt(s, 10, 0)` on a 64-bit platform. -/
def ParseInt10 (s : GoString) : Int × Option Error :=
  match s with
  | [] => (0, some .errSyntax)
  | c :: t =>
    let neg := decide (c.val = 0x2D)
    let body := if c.val = 0x2B ∨ c.val = 0x2D then t else s
    if body = [] then (0, some .errSyntax)
    else
      match parseUintLoop body 0 with
      | (_, some .errSyntax) => (0, some .errSyntax)
      | (un, _) =>
        if !neg ∧ un ≥ 9223372036854775808 then (9223372036854775807, some .errRange)
        else if neg ∧ un > 9223372036854775808 then (-9223372036854775808, some .errRange)
        else (if neg then -(un : Int) else (un : Int), none)

/-- Function `strconv.Atoi` on a 64-bit platform: a text of 1 to 18 bytes
takes the fast path (optional sign, then the digit loop), any other text goes
through `ParseInt`. -/
def Atoi (s : GoString) : Int × Option Error :=
  match s with
  | [] => ParseInt10 s
  | s0 :: t =>
    if s.length < 19 then
      let body := if s0.val = 0x2D ∨ s0.val = 0x2B then t else s
      if body.length < 1 then (0, some .errSyntax)
      else
        match atoiLoop body 0 with
        | none => (0, some .errSyntax)
        | some n => (if s0.val = 0x2D then -n else n, none)
    else ParseInt10 s

/-! ## `time.Date` -/

/-- Conversion to `uint64`, and the result of `uint64` arithmetic. -/
def wrapU64 (x : Int) : Int := x % 18446744073709551616

/-- Conversion to `int64`, and the result of `int64` arithmetic. -/
def wrapI64 (x : Int) : Int :=
  (x + 9223372036854775808) % 18446744073709551616 - 9223372036854775808

/-- A time zone (`*time.Location`), given by its method `lookup`: for an
instant in Unix seconds, the offset in seconds east of UTC in force and the
bounds `[start, end)` of the period in which that offset applies (the zone
name is left out). The `.1` is the offset, `.2.1` the start, `.2.2` the end. -/
structure Location where
  lookup : Int → Int × Int × Int

/-- The location `time.UTC`: offset 0 at every instant. -/
def UTC : Location :=
  { lookup := fun _ => (0, -9223372036854775808, 9223372036854775807) }

/-- A `time.Time`, reduced to what `Unix()` reads: seconds since the Unix
epoch and nanoseconds within the second. -/
structure Time where
  sec : Int
  nsec : Int
  deriving DecidableEq, Repr

/-- Method `Time.Unix`. -/
def Time.Unix (t : Time) : Int := t.sec

/-- Function `time.norm`: `(nhi, nlo)` with `hi*base + lo = nhi*base + nlo`
and `0 ≤ nlo < base`. The `int` arithmetic is exact for the arguments met
here, which are at most four decimal digits long. -/
def norm (hi lo base : Int) : Int × Int :=
  let p : Int × Int :=
    if lo < 0 then
      let n := Int.tdiv (-lo - 1) base + 1
      (hi - n, lo + n * base)
    else (hi, lo)
  if p.2 ≥ base then
    let n := Int.tdiv p.2 base
    (p.1 + n, p.2 - n * base)
  else p

/-- Function `time.isLeap`. -/
def isLeap (year : Int) : Bool :=
  Int.tmod year 4 == 0 && (Int.tmod year 100 != 0 || Int.tmod year 400 == 0)

/-- Table `time.daysBefore`: days in a non-leap year before the month of the
given zero-based index. -/
def daysBefore (i : Int) : Int :=
  [0, 31, 59, 90, 120, 151, 181, 212, 243, 273, 304, 334, 365].getD i.toNat 0

/-- Constant `time.absoluteZeroYear`. -/
def absoluteZeroYear : Int := -292277022399

/-- Constant `time.absoluteToInternal`. -/
def absoluteToInternal : Int := -9223371966579724800

/-- Constant `time.internalToUnix`. -/
def internalToUnix : Int := -62135596800

/-- Function `time.daysSinceEpoch`: the days from the absolute epoch to
1 January of the year, by 400-, 100- and 4-year cycles, in `uint64`. -/
def daysSinceEpoch (year : Int) : Int :=
  let y := wrapU64 (year - absoluteZeroYear)
  let n := y / 400
  let y := wrapU64 (y - 400 * n)
  let d := wrapU64 (146097 * n)
  let n := y / 100
  let y := wrapU64 (y - 100 * n)
  let d := wrapU64 (d + wrapU64 (36524 * n))
  let n := y / 4
  let y := wrapU64 (y - 4 * n)
  let d := wrapU64 (d + wrapU64 (1461 * n))
  let n := y
  wrapU64 (d + wrapU64 (365 * n))

/-- The variable `abs` of `time.Date`: the seconds from the absolute epoch to
the (normalised) date and time of day, in `uint64`. -/
def absSeconds (year month day hour min sec : Int) : Int :=
  let d := daysSinceEpoch year
  let d := wrapU64 (d + wrapU64 (daysBefore (month - 1)))
  let d := if isLeap year ∧ month ≥ 3 then wrapU64 (d + 1) else d
  let d := wrapU64 (d + wrapU64 (day - 1))
  let abs := wrapU64 (d * 86400)
  wrapU64 (abs + wrapU64 (hour * 3600 + min * 60 + sec))

/-- Function `time.Date` (as of Go 1.13): normalises the fields, counts the
seconds since the absolute epoch in `uint64`, converts to Unix seconds in
`int64` and subtracts the zone offset found by `loc.lookup`. -/
def Date (year month day hour min sec nsec : Int) (loc : Location) : Time :=
  let m := month - 1
  let ym := norm year m 12
  let year := ym.1
  let month := ym.2 + 1
  let sn := norm sec nsec 1000000000
  let ms := norm min sn.1 60
  let hm := norm hour ms.1 60
  let dh := norm day hm.1 24
  let nsec := sn.2
  let sec := ms.2
  let min := hm.2
  let hour := dh.2
  let day := dh.1
  let abs := absSeconds year month day hour min sec
  let unix := wrapI64 (wrapI64 abs + (absoluteToInternal + internalToUnix))
  let lk := loc.lookup unix
  let unix :=
    if lk.1 ≠ 0 then
      let utc := wrapI64 (unix - lk.1)
      let offset :=
        if utc < lk.2.1 then (loc.lookup (wrapI64 (lk.2.1 - 1))).1
        else if utc ≥ lk.2.2 then (loc.lookup lk.2.2).1
        else lk.1
      wrapI64 (unix - offset)
    else unix
  { sec := unix, nsec := nsec }

/-! ## DateTime -/

/-- Message `dml.DateTime`: the field `Milliseconds int64`. -/
structure DateTime where
  Milliseconds : Int
  deriving DecidableEq, Repr

/-- One `strconv.Atoi` call of `DateTimeFromString` followed by its
`if err != nil { return nil }`: `none` stands for the early return. -/
def atoiOrNil (field : GoString) : Option Int :=
  match Atoi field with
  | (n, none) => some n
  | (_, some _) => none

/-- Function `DateTimeFromString`; `Local` is the location `time.Local` of
the process. The result `none` is the `nil` pointer. -/
def DateTimeFromString (Local : Location) (s : GoString) : Option DateTime :=
  if s.length = 10 ∨ s.length = 19 then do
    let year ← atoiOrNil (slice s 0 4)
    let month ← atoiOrNil (slice s 5 7)
    let day ← atoiOrNil (slice s 8 10)
    let hms : Int × Int × Int ←
      if s.length = 19 then do
        let hour ← atoiOrNil (slice s 11 13)
        let min ← atoiOrNil (slice s 14 16)
        let sec ← atoiOrNil (slice s 17 19)
        pure (hour, min, sec)
      else pure (12, 0, 0)
    let t := Date year month day hms.1 hms.2.1 hms.2.2 0 Local
    pure { Milliseconds := wrapI64 (t.Unix * 1000) }
  else some { Milliseconds := 0 }

/-! ## Specification-side definitions -/

/-- Whether a byte is a hexadecimal digit `0-9`, `a-f` or `A-F`. -/
def isHexDigit (b : Byte) : Bool :=
  (0x30 ≤ b.val && b.val ≤ 0x39) || (0x61 ≤ b.val && b.val ≤ 0x66)
    || (0x41 ≤ b.val && b.val ≤ 0x46)

/-- The text is exactly 32 hexadecimal digits. -/
def IsGuidText (s : GoString) : Prop := s.length = 32 ∧ ∀ b ∈ s, isHexDigit b = true

instance (s : GoString) : Decidable (IsGuidText s) := by
  unfold IsGuidText; exact inferInstance

/-- The number a hexadecimal digit stands for. -/
def hexDigitValue (b : Byte) : Nat :=
  if b.val ≤ 0x39 then b.val - 0x30
  else if b.val ≤ 0x46 then b.val - 0x41 + 10
  else b.val - 0x61 + 10

/-- The hex decoding of a text of hexadecimal digits: one byte for each pair
of digits, the first digit of the pair being the high half. -/
def hexPairs : GoString → List Byte
  | p :: q :: rest => Fin.ofNat (16 * hexDigitValue p + hexDigitValue q) :: hexPairs rest
  | _ => []

/-- Whether a byte is an ASCII digit `0-9`. -/
def isAsciiDigit (b : Byte) : Bool := 0x30 ≤ b.val && b.val ≤ 0x39

/-- The literal pattern `^(\\+-)?\\d+(.\\d+)$` in words, on the characters
(runes) the text is read as: an optional two-character prefix `+-`, one or
more ASCII digits, exactly one character other than newline, one or more
ASCII digits. -/
def IsLiteralDecimalText (s : GoString) : Prop :=
  ∃ (sign d1 : List Nat) (c : Nat) (d2 : List Nat),
    decodeRunes s = sign ++ d1 ++ [c] ++ d2 ∧
    (sign = [] ∨ sign = [0x2B, 0x2D]) ∧
    (d1 ≠ [] ∧ ∀ r ∈ d1, 0x30 ≤ r ∧ r ≤ 0x39) ∧
    c ≠ 0x0A ∧
    (d2 ≠ [] ∧ ∀ r ∈ d2, 0x30 ≤ r ∧ r ≤ 0x39)

/-- The grammar `digits(.digits)?` on a text: one or more ASCII digits,
optionally followed by `.` and one or more ASCII digits, and nothing else. -/
def isUnsignedDecimalText (s : GoString) : Bool :=
  let whole := s.takeWhile isAsciiDigit
  let rest := s.dropWhile isAsciiDigit
  !whole.isEmpty &&
    match rest with
    | [] => true
    | c :: frac => c.val == 0x2E && !frac.isEmpty && frac.all isAsciiDigit

/-- The decimal grammar `[+-]?digits(.digits)?` on a text: at most one leading
`+` or `-`, then `digits(.digits)?`. -/
def isDecimalGrammarText (s : GoString) : Bool :=
  match s with
  | [] => false
  | c :: t =>
    if c.val = 0x2B ∨ c.val = 0x2D then isUnsignedDecimalText t
    else isUnsignedDecimalText s

/-- The grammar accepted by `strconv.Atoi`, in words: an optional `+` or `-`
followed by one or more ASCII digits. -/
def isSignedDigits (f : GoString) : Bool :=
  match f with
  | [] => false
  | c :: t =>
    if c.val = 0x2B ∨ c.val = 0x2D then !t.isEmpty && t.all isAsciiDigit
    else f.all isAsciiDigit

/-- The sub-fields `DateTimeFromString` extracts from a text of length 10 or
19: `s[0:4]`, `s[5:7]`, `s[8:10]` and, for length 19 only, `s[11:13]`,
`s[14:16]`, `s[17:19]`. -/
def subFields (s : GoString) : List GoString :=
  [slice s 0 4, slice s 5 7, slice s 8 10] ++
    (if s.length = 19 then [slice s 11 13, slice s 14 16, slice s 17 19] else [])

/-- The ASCII digit for `n mod 10`. -/
def digitChar (n : Nat) : Byte := Fin.ofNat (0x30 + n % 10)

/-- The two-digit, zero-padded decimal rendering of `n` (for `n ≤ 99`). -/
def twoDigits (n : Nat) : GoString := [digitChar (n / 10), digitChar n]

/-- The four-digit, zero-padded decimal rendering of `n` (for `n ≤ 9999`). -/
def fourDigits (n : Nat) : GoString :=
  [digitChar (n / 1000), digitChar (n / 100), digitChar (n / 10), digitChar n]

/-- The 19-character text `YYYY-MM-DD HH:MM:SS` of six numeric fields. -/
def formatDateTime (y mo d h mi s : Nat) : GoString :=
  fourDigits y ++ ascii "-" ++ twoDigits mo ++ ascii "-" ++ twoDigits d ++ ascii " " ++
    twoDigits h ++ ascii ":" ++ twoDigits mi ++ ascii ":" ++ twoDigits s

/-- The Gregorian leap-year rule. -/
def isLeapYear (y : Nat) : Bool := y % 4 == 0 && (y % 100 != 0 || y % 400 == 0)

/-- The number of days of a calendar year. -/
def daysInYear (y : Nat) : Nat := if isLeapYear y then 366 else 365

/-- The number of days of month `mo` (1 to 12) of year `y`. -/
def daysInMonth (y mo : Nat) : Nat :=
  match mo with
  | 2 => if isLeapYear y then 29 else 28
  | 4 => 30
  | 6 => 30
  | 9 => 30
  | 11 => 30
  | _ => 31

/-- The number of days from 1 January of year 0 to 1 January of year `y`,
counted year by year. -/
def daysBeforeYear : Nat → Nat
  | 0 => 0
  | y + 1 => daysBeforeYear y + daysInYear y

/-- The number of days from 1 January of year `y` to the first day of month
`mo` (1 to 12) of that year, counted month by month. -/
def daysBeforeMonth (y : Nat) : Nat → Nat
  | 0 => 0
  | mo + 1 => if mo = 0 then 0 else daysBeforeMonth y mo + daysInMonth y mo

/-- The six fields form a valid calendar date (years 0 to 9999) and time of
day. -/
def IsCivil (y mo d h mi s : Nat) : Prop :=
  y ≤ 9999 ∧ 1 ≤ mo ∧ mo ≤ 12 ∧ 1 ≤ d ∧ d ≤ daysInMonth y mo ∧ h ≤ 23 ∧ mi ≤ 59 ∧ s ≤ 59

instance (y mo d h mi s : Nat) : Decidable (IsCivil y mo d h mi s) := by
  unfold IsCivil; exact inferInstance

/-- The number of seconds from 1970-01-01 00:00:00 to the given calendar date
and time of day on the same clock, every day counting 86400 seconds. -/
def civilSeconds (y mo d h mi s : Nat) : Int :=
  ((daysBeforeYear y + daysBeforeMonth y mo + (d - 1) : Nat) - (daysBeforeYear 1970 : Int))
    * 86400 + h * 3600 + mi * 60 + s

/-! ## Timestamps and native time values -/

/-- Function `time.Unix(sec, nsec)`: the time `sec` seconds and `nsec`
nanoseconds since the Unix epoch; an `nsec` outside `[0, 999999999]` is
carried into the seconds. -/
def Unix (sec nsec : Int) : Time :=
  if nsec < 0 ∨ nsec ≥ 1000000000 then
    let n := Int.tdiv nsec 1000000000
    let sec := wrapI64 (sec + n)
    let nsec := wrapI64 (nsec - n * 1000000000)
    if nsec < 0 then { sec := wrapI64 (sec - 1), nsec := wrapI64 (nsec + 1000000000) }
    else { sec := sec, nsec := nsec }
  else { sec := sec, nsec := nsec }

/-- Function `DateTimeFromTime`: `millis = t.Unix() * 1000` in `int64`. -/
def DateTimeFromTime (t : Time) : DateTime :=
  { Milliseconds := wrapI64 (t.Unix * 1000) }

/-- Method `(*DateTime).TimeFromDateTime`: `secs := millis / 1000` is Go's
integer division, which truncates toward zero, then `time.Unix(secs, 0)`. -/
def DateTime.TimeFromDateTime (m : DateTime) : Time :=
  let millis := m.Milliseconds
  let secs := Int.tdiv millis 1000
  Unix secs 0

/-! ## Rendering integers and JSON -/

/-- Digit loop of `strconv.FormatInt` / `fmt` for base 10: the decimal digits
of `n` are produced from the least significant one and prepended to `acc`;
`fuel` bounds the number of digits. -/
def utoaAux : Nat → Nat → GoString → GoString
  | 0, _, acc => acc
  | fuel + 1, n, acc =>
    if n < 10 then Fin.ofNat (0x30 + n) :: acc
    else utoaAux fuel (n / 10) (Fin.ofNat (0x30 + n % 10) :: acc)

/-- The decimal digits of a natural number, most significant first (`0` for
zero), as `strconv.FormatUint(n, 10)` and `big.Int.String` render them. -/
def utoa (n : Nat) : GoString := utoaAux (n + 1) n []

/-- The verb `%d` of `fmt.Sprintf` on an `int64` (`strconv.FormatInt(n, 10)`):
a leading `-` for a negative value, then the digits of the magnitude. -/
def formatInt (n : Int) : GoString :=
  if n < 0 then (0x2D : Byte) :: utoa n.natAbs else utoa n.natAbs

/-- Method `(*DateTime).MarshalJSON`. The parameter `Format` stands for
`t.Format(time.UnixDate)`, the layout formatting of package `time`. The
buffer receives `{`, then `"timestamp": "%s",`, then `"milliseconds": %d`,
then `}`. -/
def DateTime.MarshalJSON (Format : Time → GoString) (m : DateTime) :
    GoString × Option Error :=
  let t := m.TimeFromDateTime
  let tDisplay := Format t
  (ascii "\x7b"
    ++ (ascii "\x22timestamp\x22: \x22" ++ tDisplay ++ ascii "\x22,")
    ++ (ascii "\x22milliseconds\x22: " ++ formatInt m.Milliseconds)
    ++ ascii "\x7d", none)

/-- Method `(*Guid).MarshalJSON`: the buffer receives `{`, then
`"guid": "%s"` with the hex string, then `}`. -/
def Guid.MarshalJSON (m : Dml.Guid) : GoString × Option Error :=
  let hexstr := EncodeToString m.Guid
  (ascii "\x7b" ++ (ascii "\x22guid\x22: \x22" ++ hexstr ++ ascii "\x22") ++ ascii "\x7d", none)

/-! ## GUID and native UUID -/

/-- Type `uuid.UUID` (`[16]byte`): sixteen bytes. -/
structure UUID where
  bytes : List Byte
  size : bytes.length = 16
  deriving DecidableEq

/-- The zero value of `uuid.UUID` (`uuid.Nil`). -/
def UUID.Nil : UUID := { bytes := List.replicate 16 0, size := rfl }

/-- Function `uuid.FromBytes`: the UUID holding a copy of the 16 bytes, or the
zero UUID and an error when the slice is not 16 bytes long. -/
def UUID.FromBytes (b : List Byte) : UUID × Option Error :=
  if h : b.length = 16 then ({ bytes := b, size := h }, none)
  else (UUID.Nil, some (.uuidInvalidLength b.length))

/-- Method `(*Guid).ConvertUuid`. -/
def Guid.ConvertUuid (m : Dml.Guid) : UUID × Option Error := UUID.FromBytes m.Guid

/-- Function `ConvertUuid`: the Guid holding `id[:]`. -/
def ConvertUuid (id : UUID) : Guid := { Guid := id.bytes }

/-- Function `NewGuid`; `nid` is the UUID that `uuid.New()` returned. -/
def NewGuid (nid : UUID) : Guid := ConvertUuid nid

/-! ## Specification-side definitions for timestamps and GUID text -/

/-- A native time value: Unix seconds within `int64` and nanoseconds within
the second. -/
def Time.IsNative (t : Time) : Prop :=
  -9223372036854775808 ≤ t.sec ∧ t.sec ≤ 9223372036854775807 ∧
    0 ≤ t.nsec ∧ t.nsec < 1000000000

/-- The quotient of `x` by 1000 rounded toward zero, from the quotient of
natural numbers: the sign of `x` on the quotient of the magnitudes. -/
def quotTowardZero (x : Int) : Int :=
  if 0 ≤ x then ((x.natAbs / 1000 : Nat) : Int) else -((x.natAbs / 1000 : Nat) : Int)

/-- The lowercase hexadecimal digit for a value below 16, read off the text
`0123456789abcdef`. -/
def lowerHexDigit (n : Nat) : Byte := (ascii "0123456789abcdef").getD n 0

/-- The lowercase hex text of a byte sequence: for each byte in order, the
digit of its high half then the digit of its low half. -/
def hexText (bs : List Byte) : GoString :=
  bs.flatMap (fun b => [lowerHexDigit (b.val / 16), lowerHexDigit (b.val % 16)])

/-- ASCII lowercase of one byte: `A`-`Z` move to `a`-`z`. -/
def toLowerByte (b : Byte) : Byte :=
  if 0x41 ≤ b.val ∧ b.val ≤ 0x5A then Fin.ofNat (b.val + 32) else b

/-- ASCII lowercase of a text. -/
def lowercase (s : GoString) : GoString := s.map toLowerByte

/-- Whether index `i` of a text of length `len` lies inside one of the fields
`[0,4)`, `[5,7)`, `[8,10)` and, for length 19, `[11,13)`, `[14,16)`,
`[17,19)`. -/
def inField (len i : Nat) : Bool :=
  i < 4 || (5 ≤ i && i < 7) || (8 ≤ i && i < 10) ||
    (len == 19 && ((11 ≤ i && i < 13) || (14 ≤ i && i < 16) || (17 ≤ i && i < 19)))

/-! ## `math/big` and `shopspring/decimal` -/

/-- Method `(*big.Int).String`: the decimal text of an integer, `-` first for
a negative one. -/
def bigIntString (x : Int) : GoString :=
  if x < 0 then (0x2D : Byte) :: utoa x.natAbs else utoa x.natAbs

/-- The number a text of decimal digits stands for, digit by digit from the
left. -/
def digitsValue (s : GoString) : Nat :=
  s.foldl (fun acc b => acc * 10 + (b.val - 0x30)) 0

/-- Method `(*big.Int).SetString(s, 10)`: an optional `+` or `-`, then one or
more decimal digits and nothing else; `none` when the text is not of that
form. -/
def bigIntSetString (s : GoString) : Option Int :=
  match s with
  | [] => none
  | c :: t =>
    let neg := decide (c.val = 0x2D)
    let body := if c.val = 0x2B ∨ c.val = 0x2D then t else s
    if body.isEmpty ∨ ¬ body.all isAsciiDigit then none
    else some (if neg then -(digitsValue body : Int) else (digitsValue body : Int))

/-- Type `decimal.Decimal` of `shopspring/decimal`: the number
`value * 10^exp`, with `value` a `big.Int` and `exp` an `int32`. -/
structure NativeDecimal where
  value : Int
  exp : Int
  deriving DecidableEq, Repr

/-- Function `strings.TrimRight(s, "0")`, also the trailing-zero loop of
`Decimal.string`: the text without its trailing `0` characters. -/
def trimRightZeros : GoString → GoString
  | [] => []
  | c :: t =>
    let r := trimRightZeros t
    if r.isEmpty ∧ c.val = 0x30 then [] else c :: r

/-- Function `strings.Split(s, ".")`: the pieces of `s` between the dots. -/
def splitDot : GoString → List GoString
  | [] => [[]]
  | c :: t =>
    if c.val = 0x2E then [] :: splitDot t
    else
      match splitDot t with
      | [] => [[c]]
      | p :: ps => (c :: p) :: ps

/-- Function `strings.IndexAny(s, "Ee")`: the index of the first `E` or `e`,
`none` for -1. -/
def indexAnyE : GoString → Option Nat
  | [] => none
  | c :: t =>
    if c.val = 0x45 ∨ c.val = 0x65 then some 0 else (indexAnyE t).map (· + 1)

/-- Digit loop of `strconv.ParseUint(s, 10, 32)`. -/
def parseUintLoop32 : GoString → Nat → Nat × Option Error
  | [], n => (n, none)
  | c :: t, n =>
    if 0x30 ≤ c.val ∧ c.val ≤ 0x39 then
      if n ≥ 18446744073709551615 / 10 + 1 then (4294967295, some .errRange)
      else if n * 10 + (c.val - 0x30) > 4294967295 then (4294967295, some .errRange)
      else parseUintLoop32 t (n * 10 + (c.val - 0x30))
    else (0, some .errSyntax)

/-- Function `strconv.ParseInt(s, 10, 32)`. -/
def ParseInt32 (s : GoString) : Int × Option Error :=
  match s with
  | [] => (0, some .errSyntax)
  | c :: t =>
    let neg := decide (c.val = 0x2D)
    let body := if c.val = 0x2B ∨ c.val = 0x2D then t else s
    if body = [] then (0, some .errSyntax)
    else
      match parseUintLoop32 body 0 with
      | (_, some .errSyntax) => (0, some .errSyntax)
      | (un, _) =>
        if !neg ∧ un ≥ 2147483648 then (2147483647, some .errRange)
        else if neg ∧ un > 2147483648 then (-2147483648, some .errRange)
        else (if neg then -(un : Int) else (un : Int), none)

/-- Method `Decimal.String` (`d.string(true)`): for a non-negative exponent
the integer `value * 10^exp`; otherwise the digits of the magnitude split at
`-exp` places from the right (padded with zeros after `0.` when too short),
the trailing zeros of the fraction dropped, the dot kept only before a
non-empty fraction, and `-` first for a negative value. -/
def NativeDecimal.String (d : NativeDecimal) : GoString :=
  if d.exp ≥ 0 then bigIntString (d.value * 10 ^ d.exp.toNat)
  else
    let str := utoa d.value.natAbs
    let k := (-d.exp).toNat
    let parts : GoString × GoString :=
      if str.length > k then (str.take (str.length - k), str.drop (str.length - k))
      else ([(0x30 : Byte)], List.replicate (k - str.length) (0x30 : Byte) ++ str)
    let intPart := parts.1
    let fractionalPart := trimRightZeros parts.2
    let number :=
      if fractionalPart.length > 0 then intPart ++ [(0x2E : Byte)] ++ fractionalPart
      else intPart
    if d.value < 0 then (0x2D : Byte) :: number else number

/-- Function `decimal.NewFromString`: an optional exponent after `E` or `e`,
at most one dot, the trailing zeros of the fraction dropped, the remaining
digits read as a `big.Int`, and the exponent required to fit `int32`. On
error the zero Decimal is returned. -/
def NewFromString (value : GoString) : NativeDecimal × Option Error :=
  let sci : Option (GoString × Int) :=
    match indexAnyE value with
    | some eIndex =>
      match ParseInt32 (value.drop (eIndex + 1)) with
      | (expInt, none) => some (value.take eIndex, expInt)
      | (_, some _) => none
    | none => some (value, 0)
  match sci with
  | none => ({ value := 0, exp := 0 }, some .decimalCantConvert)
  | some (value, exp) =>
    let parsed : Option (GoString × Int) :=
      match splitDot value with
      | [_] => some (value, exp)
      | [p0, p1] =>
        let decimalPart := trimRightZeros p1
        some (p0 ++ decimalPart, exp + -(decimalPart.length : Int))
      | _ => none
    match parsed with
    | none => ({ value := 0, exp := 0 }, some .decimalCantConvert)
    | some (intString, exp) =>
      match bigIntSetString intString with
      | none => ({ value := 0, exp := 0 }, some .decimalCantConvert)
      | some dValue =>
        if exp < -2147483648 ∨ exp > 2147483647 then
          ({ value := 0, exp := 0 }, some .decimalCantConvert)
        else ({ value := dValue, exp := exp }, none)

/-- Method `(*Decimal).ConvertDecimal`. -/
def Decimal.ConvertDecimal (m : Decimal) : NativeDecimal × Option Error :=
  NewFromString m.Plaintext

/-- Function `ConvertDecimal`. -/
def ConvertDecimal (d : NativeDecimal) : Decimal := { Plaintext := d.String }

/-- Numerical equality of two native decimals (`Decimal.Equal`): equal values
once both are brought to the smaller of the two exponents. -/
def NativeDecimal.NumEq (a b : NativeDecimal) : Prop :=
  a.value * 10 ^ (a.exp - min a.exp b.exp).toNat = b.value * 10 ^ (b.exp - min a.exp b.exp).toNat

instance (a b : NativeDecimal) : Decidable (NativeDecimal.NumEq a b) := by
  unfold NativeDecimal.NumEq; exact inferInstance

/-! ## Specification-side definitions for the timestamp JSON -/

/-- The rendering `{"timestamp": "F","milliseconds": N}` of a formatted
string `F` and an integer text `N`: between braces, the field `timestamp`
with the quoted string `F`, a comma, and the field `milliseconds` with the
bare integer text `N`. -/
def timestampJSON (F N : GoString) : GoString :=
  ascii "\x7b\x22timestamp\x22: \x22" ++ F ++ ascii "\x22,\x22milliseconds\x22: " ++ N
    ++ ascii "\x7d"

/-- The text `txt` is the base-10 rendering of the integer `n`: the decimal
digits of its magnitude without leading zeros (the single digit `0` for
zero), after a `-` when `n` is negative. -/
def IsDecimalRendering (n : Int) (txt : GoString) : Prop :=
  ∃ ds : GoString, ds ≠ [] ∧ ds.all isAsciiDigit = true ∧
    (ds.head? = some (0x30 : Byte) → ds = [(0x30 : Byte)]) ∧
    digitsValue ds = n.natAbs ∧
    txt = if n < 0 then (0x2D : Byte) :: ds else ds

/-! ## Specification-side definitions for local time zones -/

/-- In the zone `L`, the instant `u` (seconds from the Unix epoch) shows the
wall-clock reading `w` (seconds from 1970-01-01 00:00:00 on the local clock):
the reading is the instant plus the offset in force at that instant. -/
def Location.ReadsAs (L : Location) (u w : Int) : Prop :=
  u + (L.lookup u).1 = w

instance (L : Location) (u w : Int) : Decidable (L.ReadsAs u w) := by
  unfold Location.ReadsAs; exact inferInstance

/-- The lookup function of `L` describes a time zone whose offsets are at most
`B` seconds in magnitude (`B` within `int32`): around every instant `u` (of
magnitude at most `2^62`) it reports a period `[start, end)` that contains
`u`, gives the same answer at every instant of that period, and is at least
`2 * B` seconds long, so that transitions are further apart than twice the
largest offset. -/
def Location.WellFormed (L : Location) (B : Int) : Prop :=
  0 ≤ B ∧ B ≤ 2147483647 ∧
  (∀ u : Int, -B ≤ (L.lookup u).1 ∧ (L.lookup u).1 ≤ B) ∧
  (∀ u : Int, -4611686018427387904 ≤ u → u ≤ 4611686018427387904 →
    (L.lookup u).2.1 ≤ u ∧ u < (L.lookup u).2.2 ∧
    2 * B ≤ (L.lookup u).2.2 - (L.lookup u).2.1 ∧
    ∀ v : Int, (L.lookup u).2.1 ≤ v → v < (L.lookup u).2.2 → L.lookup v = L.lookup u)

/-- The zone of New York around 2024: standard time (UTC-5) from
2023-11-05 06:00 UTC to 2024-03-10 07:00 UTC and from 2024-11-03 06:00 UTC
on, daylight time (UTC-4) before and in between. On 2024-03-10 the local
clock jumps from 01:59:59 to 03:00:00. -/
def NewYork : Location :=
  { lookup := fun u =>
      if u < 1699164000 then (-14400, -9223372036854775808, 1699164000)
      else if u < 1710054000 then (-18000, 1699164000, 1710054000)
      else if u < 1730613600 then (-14400, 1710054000, 1730613600)
      else (-18000, 1730613600, 9223372036854775807) }

/-- A zone with a period shorter than its offsets: the offset is 100 seconds
before the instant -5 and from the instant 0 on, and 50 seconds during the
five seconds in between. -/
def ShortPeriod : Location :=
  { lookup := fun u =>
      if u < -5 then (100, -9223372036854775808, -5)
      else if u < 0 then (50, -5, 0)
      else (100, 0, 9223372036854775807) }

/-! # Theorems -/

/-! ## Regular expressions: the matcher computes the language -/

namespace Regexp

theorem matches_nil_of_nullable : ∀ (re : Regexp), nullable re = true → Matches re []
  | noMatch, h => by simp [nullable] at h
  | emptyMatch, _ => Matches.emptyMatch
  | single _, h => by simp [nullable] at h
  | concat a b, h => by
    simp only [nullable, Bool.and_eq_true] at h
    exact Matches.concat (u := []) (v := []) (matches_nil_of_nullable a h.1)
      (matches_nil_of_nullable b h.2)
  | alternate a b, h => by
    simp only [nullable, Bool.or_eq_true] at h
    rcases h with h | h
    · exact Matches.alternateLeft (matches_nil_of_nullable a h)
    · exact Matches.alternateRight (matches_nil_of_nullable b h)
  | star _, _ => Matches.starNil

theorem nullable_of_matches {re : Regexp} {w : List Nat} (h : Matches re w) :
    w = [] → nullable re = true := by
  induction h with
  | emptyMatch => intro _; rfl
  | single _ => intro h; simp at h
  | concat _ _ iha ihb =>
    intro h
    rw [List.append_eq_nil] at h
    simp [nullable, iha h.1, ihb h.2]
  | alternateLeft _ ih => intro h; simp [nullable, ih h]
  | alternateRight _ ih => intro h; simp [nullable, ih h]
  | starNil => intro _; rfl
  | starCons _ _ _ _ => intro _; rfl

theorem nullable_iff (re : Regexp) : nullable re = true ↔ Matches re [] :=
  ⟨matches_nil_of_nullable re, fun h => nullable_of_matches h rfl⟩

theorem matches_cons_of_deriv :
    ∀ (re : Regexp) (r : Nat) (w : List Nat), Matches (deriv re r) w → Matches re (r :: w)
  | noMatch, _, _, h => by cases h
  | emptyMatch, _, _, h => by cases h
  | single c, r, w, h => by
    by_cases hc : c.has r = true
    · simp only [deriv, hc, if_true] at h
      cases h
      exact Matches.single hc
    · simp only [deriv, hc] at h
      cases h
  | concat a b, r, w, h => by
    have key : ∀ w, Matches (concat (deriv a r) b) w → Matches (concat a b) (r :: w) := by
      intro w hw
      cases hw with
      | concat h1 h2 =>
        exact Matches.concat (u := r :: _) (matches_cons_of_deriv a r _ h1) h2
    by_cases hn : nullable a = true
    · simp only [deriv, hn, if_true] at h
      cases h with
      | alternateLeft h1 => exact key w h1
      | alternateRight h2 =>
        exact Matches.concat (u := []) (matches_nil_of_nullable a hn)
          (matches_cons_of_deriv b r w h2)
    · simp only [deriv, hn] at h
      exact key w h
  | alternate a b, r, w, h => by
    cases h with
    | alternateLeft h1 => exact Matches.alternateLeft (matches_cons_of_deriv a r w h1)
    | alternateRight h2 => exact Matches.alternateRight (matches_cons_of_deriv b r w h2)
  | star a, r, w, h => by
    cases h with
    | concat h1 h2 =>
      exact Matches.starCons (u := r :: _) (matches_cons_of_deriv a r _ h1) h2

theorem deriv_of_matches_cons {re : Regexp} {x : List Nat} (h : Matches re x) :
    ∀ (r : Nat) (w : List Nat), x = r :: w → Matches (deriv re r) w := by
  induction h with
  | emptyMatch => intro r w h; simp at h
  | @single c r0 hc =>
    intro r w h
    simp only [List.cons.injEq] at h
    obtain ⟨rfl, rfl⟩ := h
    simp only [deriv, hc, if_true]
    exact Matches.emptyMatch
  | @concat a b u v ha hb iha ihb =>
    intro r w h
    cases u with
    | nil =>
      have hn : nullable a = true := nullable_of_matches ha rfl
      simp only [deriv, hn, if_true]
      exact Matches.alternateRight (ihb r w (by simpa using h))
    | cons c u1 =>
      simp only [List.cons_append, List.cons.injEq] at h
      obtain ⟨rfl, rfl⟩ := h
      have h1 : Matches (concat (deriv a c) b) (u1 ++ v) :=
        Matches.concat (iha c u1 rfl) hb
      by_cases hn : nullable a = true
      · simp only [deriv, hn, if_true]
        exact Matches.alternateLeft h1
      · simp only [deriv, hn]
        exact h1
  | alternateLeft _ ih => intro r w h; exact Matches.alternateLeft (ih r w h)
  | alternateRight _ ih => intro r w h; exact Matches.alternateRight (ih r w h)
  | starNil => intro r w h; simp at h
  | @starCons a u v ha hs iha ihs =>
    intro r w h
    cases u with
    | nil => exact ihs r w (by simpa using h)
    | cons c u1 =>
      simp only [List.cons_append, List.cons.injEq] at h
      obtain ⟨rfl, rfl⟩ := h
      exact Matches.concat (iha c u1 rfl) hs

theorem fullMatch_iff : ∀ (re : Regexp) (w : List Nat), fullMatch re w = true ↔ Matches re w
  | re, [] => by simpa [fullMatch] using nullable_iff re
  | re, r :: w => by
    rw [fullMatch, fullMatch_iff (deriv re r) w]
    exact ⟨matches_cons_of_deriv re r w, fun h => deriv_of_matches_cons h r w rfl⟩

end Regexp

namespace Regexp

theorem matches_emptyMatch_iff (w : List Nat) : Matches emptyMatch w ↔ w = [] :=
  ⟨fun h => by cases h; rfl, fun h => h ▸ Matches.emptyMatch⟩

theorem matches_single_iff (c : CharSet) (w : List Nat) :
    Matches (single c) w ↔ ∃ r, w = [r] ∧ c.has r = true :=
  ⟨fun h => by cases h with | single hc => exact ⟨_, rfl, hc⟩,
   fun ⟨_, hw, hc⟩ => hw ▸ Matches.single hc⟩

theorem matches_concat_iff (a b : Regexp) (w : List Nat) :
    Matches (concat a b) w ↔ ∃ u v, w = u ++ v ∧ Matches a u ∧ Matches b v :=
  ⟨fun h => by cases h with | concat ha hb => exact ⟨_, _, rfl, ha, hb⟩,
   fun ⟨_, _, hw, ha, hb⟩ => hw ▸ Matches.concat ha hb⟩

theorem matches_alternate_iff (a b : Regexp) (w : List Nat) :
    Matches (alternate a b) w ↔ Matches a w ∨ Matches b w :=
  ⟨fun h => by
    cases h with
    | alternateLeft h => exact Or.inl h
    | alternateRight h => exact Or.inr h,
   fun h => h.elim Matches.alternateLeft Matches.alternateRight⟩

theorem matches_quest_iff (a : Regexp) (w : List Nat) :
    Matches (quest a) w ↔ Matches a w ∨ w = [] := by
  rw [quest, matches_alternate_iff, matches_emptyMatch_iff]

theorem all_of_matches_star {re : Regexp} {w : List Nat} (h : Matches re w) :
    ∀ c, re = star (single c) → ∀ r ∈ w, c.has r = true := by
  induction h with
  | emptyMatch => intro c hc; cases hc
  | single _ => intro c hc; cases hc
  | concat _ _ _ _ => intro c hc; cases hc
  | alternateLeft _ _ => intro c hc; cases hc
  | alternateRight _ _ => intro c hc; cases hc
  | starNil => intro c _ r hr; simp at hr
  | starCons ha _ _ ihs =>
    intro c hc r hr
    cases hc
    rw [List.mem_append] at hr
    rcases hr with hr | hr
    · obtain ⟨r0, hu, h0⟩ := (matches_single_iff c _).1 ha
      subst hu
      simp only [List.mem_singleton] at hr
      exact hr ▸ h0
    · exact ihs c rfl r hr

theorem matches_star_single_iff (c : CharSet) (w : List Nat) :
    Matches (star (single c)) w ↔ ∀ r ∈ w, c.has r = true := by
  constructor
  · intro h
    exact all_of_matches_star h c rfl
  · intro h
    induction w with
    | nil => exact Matches.starNil
    | cons r w ih =>
      exact Matches.starCons (u := [r]) (Matches.single (h r (by simp)))
        (ih (fun x hx => h x (by simp [hx])))

theorem matches_plus_single_iff (c : CharSet) (w : List Nat) :
    Matches (plus (single c)) w ↔ w ≠ [] ∧ ∀ r ∈ w, c.has r = true := by
  rw [plus, matches_concat_iff]
  constructor
  · rintro ⟨u, v, rfl, hu, hv⟩
    obtain ⟨r0, rfl, h0⟩ := (matches_single_iff c u).1 hu
    refine ⟨by simp, ?_⟩
    intro r hr
    simp only [List.singleton_append, List.mem_cons] at hr
    rcases hr with rfl | hr
    · exact h0
    · exact (matches_star_single_iff c v).1 hv r hr
  · rintro ⟨hne, h⟩
    cases w with
    | nil => exact absurd rfl hne
    | cons r w =>
      exact ⟨[r], w, rfl, Matches.single (h r (by simp)),
        (matches_star_single_iff c w).2 (fun x hx => h x (by simp [hx]))⟩

theorem matches_repeatN_single_iff (c : CharSet) :
    ∀ (n : Nat) (w : List Nat),
      Matches (repeatN n (single c)) w ↔ w.length = n ∧ ∀ r ∈ w, c.has r = true
  | 0, w => by
    rw [repeatN, matches_emptyMatch_iff]
    constructor
    · rintro rfl
      simp
    · rintro ⟨h, _⟩
      exact List.length_eq_zero.1 h
  | n + 1, w => by
    rw [repeatN, matches_concat_iff]
    constructor
    · rintro ⟨u, v, rfl, hu, hv⟩
      obtain ⟨r0, rfl, h0⟩ := (matches_single_iff c u).1 hu
      obtain ⟨hl, hall⟩ := (matches_repeatN_single_iff c n v).1 hv
      refine ⟨by simp [hl], ?_⟩
      intro r hr
      simp only [List.singleton_append, List.mem_cons] at hr
      rcases hr with rfl | hr
      · exact h0
      · exact hall r hr
    · rintro ⟨hl, h⟩
      cases w with
      | nil => simp at hl
      | cons r w =>
        exact ⟨[r], w, rfl, Matches.single (h r (by simp)),
          (matches_repeatN_single_iff c n w).2
            ⟨by simpa using hl, fun x hx => h x (by simp [hx])⟩⟩

end Regexp

/-! ## UTF-8 decoding of ASCII text -/

theorem decodeRune_ascii (b : Byte) (t : GoString) (hb : b.val < 0x80) :
    DecodeRuneInString (b :: t) = (b.val, 1) := by
  have h1 : first b = 0xF0 := by simp [first, hb]
  simp [DecodeRuneInString, h1]

theorem decodeRunes_cons_ascii (b : Byte) (t : GoString) (hb : b.val < 0x80) :
    decodeRunes (b :: t) = b.val :: decodeRunes t := by
  simp [decodeRunes, decodeRunesAux, decodeRune_ascii b t hb]

theorem decodeRunes_ascii :
    ∀ (s : GoString), (∀ b ∈ s, b.val < 0x80) → decodeRunes s = s.map (fun b => b.val)
  | [], _ => rfl
  | b :: t, h => by
    rw [decodeRunes_cons_ascii b t (h b (by simp)),
      decodeRunes_ascii t (fun x hx => h x (by simp [hx]))]
    rfl

theorem le_or_left (x y : Nat) : x ≤ x ||| y :=
  Nat.le_of_testBit (fun i hi => by simp [hi])

set_option maxRecDepth 100000 in
theorem first_two (s0 : Byte) : first s0 < 0xF0 → first s0 &&& 7 ≤ 2 →
    2 ≤ s0.val &&& 0x1F := by
  revert s0; decide

set_option maxRecDepth 100000 in
theorem first_three (s0 : Byte) : first s0 < 0xF0 → ¬ first s0 &&& 7 ≤ 2 →
    first s0 &&& 7 ≤ 3 → 1 ≤ s0.val &&& 0x0F ∨ acceptRanges (first s0 >>> 4) = (0xA0, 0xBF) := by
  revert s0; decide

set_option maxRecDepth 100000 in
theorem first_four (s0 : Byte) : first s0 < 0xF0 → ¬ first s0 &&& 7 ≤ 3 →
    1 ≤ s0.val &&& 0x07 ∨ acceptRanges (first s0 >>> 4) = (0x90, 0xBF) := by
  revert s0; decide

set_option maxRecDepth 100000 in
theorem first_nonascii (s0 : Byte) : 0x80 ≤ s0.val → first s0 ≠ 0xF0 := by
  revert s0; decide

set_option maxRecDepth 100000 in
theorem second_low6 (s1 : Byte) :
    (0xA0 ≤ s1.val → s1.val ≤ 0xBF → 0x20 ≤ s1.val &&& 0x3F) ∧
    (0x90 ≤ s1.val → s1.val ≤ 0xBF → 0x10 ≤ s1.val &&& 0x3F) := by
  revert s1; decide

theorem le_or_right (x y : Nat) : y ≤ x ||| y :=
  Nat.le_of_testBit (fun i hi => by simp [hi])

theorem decodeRune_nonascii (b : Byte) (t : GoString) (hb : 0x80 ≤ b.val) :
    0x80 ≤ (DecodeRuneInString (b :: t)).1 := by
  have hx := first_nonascii b hb
  simp only [DecodeRuneInString]
  split_ifs with h1 h2 h3 h4 h5 h6 h7 <;> try (simp [RuneError]; done)
  · -- two-byte sequences
    have h5 := first_two b (by omega) h4
    have h6 : 128 ≤ (b.val &&& 31) <<< 6 := by rw [Nat.shiftLeft_eq]; omega
    exact le_trans h6 (le_or_left _ _)
  · -- three-byte sequences
    have h9 : 128 ≤ (b.val &&& 15) <<< 12 ||| (((b :: t).getD 1 0).val &&& 63) <<< 6 := by
      rcases first_three b (by omega) h4 h6 with h10 | h10
      · have h11 : 128 ≤ (b.val &&& 15) <<< 12 := by rw [Nat.shiftLeft_eq]; omega
        exact le_trans h11 (le_or_left _ _)
      · rw [h10] at h3
        simp only [not_or, not_lt] at h3
        have h12 := (second_low6 ((b :: t).getD 1 0)).1 h3.1 h3.2
        have h11 : 128 ≤ (((b :: t).getD 1 0).val &&& 63) <<< 6 := by
          rw [Nat.shiftLeft_eq]; omega
        exact le_trans h11 (le_or_right _ _)
    exact le_trans h9 (le_or_left _ _)
  · -- four-byte sequences
    have h9 : 128 ≤ (b.val &&& 7) <<< 18 ||| (((b :: t).getD 1 0).val &&& 63) <<< 12 := by
      rcases first_four b (by omega) h6 with h10 | h10
      · have h11 : 128 ≤ (b.val &&& 7) <<< 18 := by rw [Nat.shiftLeft_eq]; omega
        exact le_trans h11 (le_or_left _ _)
      · rw [h10] at h3
        simp only [not_or, not_lt] at h3
        have h12 := (second_low6 ((b :: t).getD 1 0)).2 h3.1 h3.2
        have h11 : 128 ≤ (((b :: t).getD 1 0).val &&& 63) <<< 12 := by
          rw [Nat.shiftLeft_eq]; omega
        exact le_trans h11 (le_or_right _ _)
    exact le_trans (le_trans h9 (le_or_left _ _)) (le_or_left _ _)

theorem decodeRunes_ascii_inv :
    ∀ (n : Nat) (s : GoString), s.length ≤ n → (∀ r ∈ decodeRunes s, r < 0x80) →
      ∀ b ∈ s, b.val < 0x80
  | _, [], _, _ => by simp
  | 0, _ :: _, hn, _ => by simp at hn
  | n + 1, b :: t, hn, h => by
    have hb : b.val < 0x80 := by
      by_contra hc
      have h1 := decodeRune_nonascii b t (by omega)
      have h2 : (DecodeRuneInString (b :: t)).1 < 0x80 :=
        h _ (by simp [decodeRunes, decodeRunesAux])
      exact absurd h1 (not_le.2 h2)
    rw [decodeRunes_cons_ascii b t hb] at h
    intro x hx
    rcases List.mem_cons.1 hx with rfl | hx
    · exact hb
    · exact decodeRunes_ascii_inv n t (by simpa using hn)
        (fun r hr => h r (by simp [hr])) x hx

/-! ## GUID text and bytes -/

theorem has_hexClass (r : Nat) :
    CharSet.has (.charClass [(0x30, 0x39), (0x61, 0x66), (0x41, 0x46)]) r = true ↔
      (0x30 ≤ r ∧ r ≤ 0x39) ∨ (0x61 ≤ r ∧ r ≤ 0x66) ∨ (0x41 ≤ r ∧ r ≤ 0x46) := by
  simp [CharSet.has]

theorem isHexDigit_iff (b : Byte) :
    isHexDigit b = true ↔
      (0x30 ≤ b.val ∧ b.val ≤ 0x39) ∨ (0x61 ≤ b.val ∧ b.val ≤ 0x66)
        ∨ (0x41 ≤ b.val ∧ b.val ≤ 0x46) := by
  simp [isHexDigit, or_assoc]

theorem matchString_validGuid_iff (s : GoString) :
    MatchString validGuid s = true ↔ IsGuidText s := by
  rw [MatchString, Regexp.fullMatch_iff, validGuid, Regexp.matches_repeatN_single_iff]
  constructor
  · rintro ⟨hl, hall⟩
    have hascii : ∀ b ∈ s, b.val < 0x80 := by
      apply decodeRunes_ascii_inv s.length s (le_refl _)
      intro r hr
      have := (has_hexClass r).1 (hall r hr)
      omega
    rw [decodeRunes_ascii s hascii] at hl hall
    refine ⟨by simpa using hl, ?_⟩
    intro b hb
    rw [isHexDigit_iff]
    exact (has_hexClass b.val).1 (hall b.val (List.mem_map.2 ⟨b, hb, rfl⟩))
  · rintro ⟨hl, hall⟩
    have hascii : ∀ b ∈ s, b.val < 0x80 := by
      intro b hb
      have := (isHexDigit_iff b).1 (hall b hb)
      omega
    rw [decodeRunes_ascii s hascii]
    refine ⟨by simpa using hl, ?_⟩
    intro r hr
    obtain ⟨b, hb, rfl⟩ := List.mem_map.1 hr
    exact (has_hexClass b.val).2 ((isHexDigit_iff b).1 (hall b hb))

theorem fromHexChar_of_hex (b : Byte) (h : isHexDigit b = true) :
    fromHexChar b = some (Fin.ofNat (hexDigitValue b)) ∧ hexDigitValue b < 16 := by
  have h1 := (isHexDigit_iff b).1 h
  unfold fromHexChar hexDigitValue
  rcases h1 with h1 | h1 | h1
  · have e1 : b.val ≤ 0x39 := h1.2
    rw [if_pos h1, if_pos e1]
    exact ⟨rfl, by omega⟩
  · have e1 : ¬ b.val ≤ 0x39 := by omega
    have e2 : ¬ b.val ≤ 0x46 := by omega
    have e3 : ¬ (0x30 ≤ b.val ∧ b.val ≤ 0x39) := by omega
    rw [if_neg e3, if_pos h1, if_neg e1, if_neg e2]
    exact ⟨rfl, by omega⟩
  · have e1 : ¬ b.val ≤ 0x39 := by omega
    have e2 : b.val ≤ 0x46 := h1.2
    have e3 : ¬ (0x30 ≤ b.val ∧ b.val ≤ 0x39) := by omega
    have e4 : ¬ (0x61 ≤ b.val ∧ b.val ≤ 0x66) := by omega
    rw [if_neg e3, if_neg e4, if_pos h1, if_neg e1, if_pos e2]
    exact ⟨rfl, by omega⟩

theorem shl4_or (a b : Nat) (ha : a < 16) (hb : b < 16) : (a <<< 4) ||| b = 16 * a + b := by
  interval_cases a <;> interval_cases b <;> rfl

theorem hexDecode_of_hex :
    ∀ (s : GoString), (∀ b ∈ s, isHexDigit b = true) → s.length % 2 = 0 →
      hexDecode s = (hexPairs s, none)
  | [], _, _ => rfl
  | [_], _, h => by simp at h
  | p :: q :: rest, hall, hl => by
    obtain ⟨hp, hp16⟩ := fromHexChar_of_hex p (hall p (by simp))
    obtain ⟨hq, hq16⟩ := fromHexChar_of_hex q (hall q (by simp))
    have ih := hexDecode_of_hex rest (fun b hb => hall b (by simp [hb]))
      (by simp only [List.length_cons] at hl; omega)
    simp only [hexDecode, hp, hq, ih, hexPairs]
    have e1 : (Fin.ofNat (hexDigitValue p) : Byte).val = hexDigitValue p := by
      show hexDigitValue p % 256 = _
      omega
    have e2 : (Fin.ofNat (hexDigitValue q) : Byte).val = hexDigitValue q := by
      show hexDigitValue q % 256 = _
      omega
    rw [e1, e2, shl4_or (hexDigitValue p) (hexDigitValue q) hp16 hq16]

theorem hexPairs_length : ∀ (s : GoString), (hexPairs s).length = s.length / 2
  | [] => rfl
  | [_] => by simp [hexPairs]
  | _ :: _ :: rest => by
    simp only [hexPairs, List.length_cons, hexPairs_length rest]
    omega

theorem GuidFromString_of_valid (s : GoString) (h : IsGuidText s) :
    GuidFromString s = (some { Guid := hexPairs s }, none) := by
  have hm := (matchString_validGuid_iff s).2 h
  have hd := hexDecode_of_hex s h.2 (by rw [h.1])
  simp [GuidFromString, hm, DecodeString, hd]

theorem GuidFromString_of_invalid (s : GoString) (h : ¬ IsGuidText s) :
    GuidFromString s = (none, some .invalidGuidError) := by
  have hm : MatchString validGuid s = false := by
    rw [← Bool.not_eq_true, matchString_validGuid_iff]
    exact h
  simp [GuidFromString, hm]

/-- C1: `GuidFromString s` succeeds (nil error) exactly when `s` is 32
hexadecimal digits. On success the result is the Guid holding the 16 bytes of
the hex decoding of `s`; on every failure it is the nil Guid with
`invalidGuidError`; and whenever the pattern check passes, `hex.DecodeString`
reports no error, so the decoding-error branch is never taken. -/
theorem GuidFromString_spec (s : GoString) :
    ((GuidFromString s).2 = none ↔ IsGuidText s) ∧
    (IsGuidText s →
      GuidFromString s = (some { Guid := hexPairs s }, none) ∧ (hexPairs s).length = 16) ∧
    (¬ IsGuidText s → GuidFromString s = (none, some .invalidGuidError)) ∧
    (MatchString validGuid s = true → (DecodeString s).2 = none) := by
  refine ⟨?_, ?_, GuidFromString_of_invalid s, ?_⟩
  · constructor
    · intro h
      by_contra hc
      rw [GuidFromString_of_invalid s hc] at h
      cases h
    · intro h
      rw [GuidFromString_of_valid s h]
  · intro h
    exact ⟨GuidFromString_of_valid s h, by rw [hexPairs_length, h.1]⟩
  · intro h
    have hv := (matchString_validGuid_iff s).1 h
    rw [DecodeString, hexDecode_of_hex s hv.2 (by rw [hv.1])]

set_option maxRecDepth 100000 in
/-- Witness for C1 at the text `00112233445566778899aAbBcCdDeEfF`. -/
theorem GuidFromString_spec_witness :
    IsGuidText (ascii "00112233445566778899aAbBcCdDeEfF") ∧
    GuidFromString (ascii "00112233445566778899aAbBcCdDeEfF") =
      (some { Guid := [0x00, 0x11, 0x22, 0x33, 0x44, 0x55, 0x66, 0x77,
                       0x88, 0x99, 0xAA, 0xBB, 0xCC, 0xDD, 0xEE, 0xFF] }, none) ∧
    (¬ IsGuidText (ascii "0011-2233-4455") ∧
      GuidFromString (ascii "0011-2233-4455") = (none, some .invalidGuidError)) :=
  ⟨by decide,
   ((GuidFromString_spec (ascii "00112233445566778899aAbBcCdDeEfF")).2.1 (by decide)).1,
   by decide,
   (GuidFromString_spec (ascii "0011-2233-4455")).2.2.1 (by decide)⟩

/-- C2: `GuidFromBytes b` succeeds exactly when `len(b) == 16`; it then
returns the Guid holding `b` itself and a nil error, and for every other
length (the empty and the nil slice included) the nil Guid and
`invalidGuidError`. -/
theorem GuidFromBytes_spec (b : List Byte) :
    ((GuidFromBytes b).2 = none ↔ b.length = 16) ∧
    (b.length = 16 → GuidFromBytes b = (some { Guid := b }, none)) ∧
    (b.length ≠ 16 → GuidFromBytes b = (none, some .invalidGuidError)) := by
  by_cases h : b.length = 16 <;> simp [GuidFromBytes, h]

/-- Witness for C2 at a 16-byte sequence and at the empty sequence. -/
theorem GuidFromBytes_spec_witness :
    GuidFromBytes [0, 1, 2, 3, 4, 5, 6, 7, 8, 9, 10, 11, 12, 13, 14, 255] =
      (some { Guid := [0, 1, 2, 3, 4, 5, 6, 7, 8, 9, 10, 11, 12, 13, 14, 255] }, none) ∧
    GuidFromBytes [] = (none, some .invalidGuidError) :=
  ⟨(GuidFromBytes_spec [0, 1, 2, 3, 4, 5, 6, 7, 8, 9, 10, 11, 12, 13, 14, 255]).2.1 (by decide),
   (GuidFromBytes_spec []).2.2 (by decide)⟩

set_option maxRecDepth 100000 in
theorem hextable_byte (v : Byte) :
    isHexDigit (hextable (v.val >>> 4)) = true ∧
    isHexDigit (hextable (v.val &&& 0x0F)) = true ∧
    (Fin.ofNat (16 * hexDigitValue (hextable (v.val >>> 4))
      + hexDigitValue (hextable (v.val &&& 0x0F))) : Byte) = v := by
  revert v; decide

theorem EncodeToString_cons (v : Byte) (bs : List Byte) :
    EncodeToString (v :: bs) =
      hextable (v.val >>> 4) :: hextable (v.val &&& 0x0F) :: EncodeToString bs := by
  simp [EncodeToString]

theorem EncodeToString_hex :
    ∀ (bs : List Byte), (∀ b ∈ EncodeToString bs, isHexDigit b = true) ∧
      (EncodeToString bs).length = 2 * bs.length ∧ hexPairs (EncodeToString bs) = bs
  | [] => by simp [EncodeToString, hexPairs]
  | v :: bs => by
    obtain ⟨h1, h2, h3⟩ := EncodeToString_hex bs
    obtain ⟨e1, e2, e3⟩ := hextable_byte v
    rw [EncodeToString_cons]
    refine ⟨?_, ?_, ?_⟩
    · intro b hb
      simp only [List.mem_cons] at hb
      rcases hb with rfl | rfl | hb
      · exact e1
      · exact e2
      · exact h1 b hb
    · simp only [List.length_cons, h2]
      omega
    · simp only [hexPairs, e3, h3]

/-- C3: hex round trip. For every Guid `g` holding exactly 16 bytes,
`GuidFromString(hex.EncodeToString(g.Guid))` succeeds (nil error) and returns
a Guid whose bytes are those of `g`. -/
theorem GuidFromString_EncodeToString (g : Guid) (h : g.Guid.length = 16) :
    GuidFromString (EncodeToString g.Guid) = (some g, none) := by
  obtain ⟨h1, h2, h3⟩ := EncodeToString_hex g.Guid
  have hv : IsGuidText (EncodeToString g.Guid) := ⟨by rw [h2, h], h1⟩
  rw [GuidFromString_of_valid _ hv, h3]

set_option maxRecDepth 100000 in
/-- Witness for C3 at the bytes `00 01 .. 0e ff`. -/
theorem GuidFromString_EncodeToString_witness :
    EncodeToString [0, 1, 2, 3, 4, 5, 6, 7, 8, 9, 10, 11, 12, 13, 14, 255] =
      ascii "000102030405060708090a0b0c0d0eff" ∧
    GuidFromString (ascii "000102030405060708090a0b0c0d0eff") =
      (some { Guid := [0, 1, 2, 3, 4, 5, 6, 7, 8, 9, 10, 11, 12, 13, 14, 255] }, none) :=
  ⟨by decide,
   (by decide : EncodeToString [0, 1, 2, 3, 4, 5, 6, 7, 8, 9, 10, 11, 12, 13, 14, 255] =
      ascii "000102030405060708090a0b0c0d0eff") ▸
    GuidFromString_EncodeToString
      { Guid := [0, 1, 2, 3, 4, 5, 6, 7, 8, 9, 10, 11, 12, 13, 14, 255] } (by decide)⟩

/-! ## Decimal text -/

theorem has_digitClass (r : Nat) :
    CharSet.has (.charClass [(0x30, 0x39)]) r = true ↔ 0x30 ≤ r ∧ r ≤ 0x39 := by
  simp [CharSet.has]

theorem matches_validDecimal_iff (w : List Nat) :
    Regexp.Matches validDecimal w ↔
      ∃ (sign d1 : List Nat) (c : Nat) (d2 : List Nat),
        w = sign ++ d1 ++ [c] ++ d2 ∧
        (sign = [] ∨ sign = [0x2B, 0x2D]) ∧
        (d1 ≠ [] ∧ ∀ r ∈ d1, 0x30 ≤ r ∧ r ≤ 0x39) ∧
        c ≠ 0x0A ∧
        (d2 ≠ [] ∧ ∀ r ∈ d2, 0x30 ≤ r ∧ r ≤ 0x39) := by
  have hdig : ∀ d : List Nat, Regexp.Matches (Regexp.plus digitClass) d ↔
      (d ≠ [] ∧ ∀ r ∈ d, 0x30 ≤ r ∧ r ≤ 0x39) := by
    intro d
    rw [digitClass, Regexp.matches_plus_single_iff]
    simp only [has_digitClass]
  have hsign : ∀ u : List Nat,
      Regexp.Matches
        (Regexp.quest (.concat (.single (.literal 0x2B)) (.single (.literal 0x2D)))) u ↔
      (u = [] ∨ u = [0x2B, 0x2D]) := by
    intro u
    rw [Regexp.matches_quest_iff, Regexp.matches_concat_iff]
    constructor
    · rintro (⟨a, b, rfl, ha, hb⟩ | h)
      · obtain ⟨x, rfl, hx⟩ := (Regexp.matches_single_iff _ _).1 ha
        obtain ⟨y, rfl, hy⟩ := (Regexp.matches_single_iff _ _).1 hb
        simp only [CharSet.has, beq_iff_eq] at hx hy
        right
        simp [hx, hy]
      · exact Or.inl h
    · rintro (h | rfl)
      · exact Or.inr h
      · exact Or.inl ⟨[0x2B], [0x2D], rfl, Regexp.Matches.single (by simp [CharSet.has]),
          Regexp.Matches.single (by simp [CharSet.has])⟩
  have hdot : ∀ u : List Nat, Regexp.Matches (.single .anyCharNotNL) u ↔
      ∃ c, u = [c] ∧ c ≠ 0x0A := by
    intro u
    rw [Regexp.matches_single_iff]
    simp [CharSet.has]
  unfold validDecimal
  constructor
  · intro h
    obtain ⟨sign, v1, rfl, hs, h1⟩ := (Regexp.matches_concat_iff _ _ _).1 h
    obtain ⟨d1, v2, rfl, hd1, h2⟩ := (Regexp.matches_concat_iff _ _ _).1 h1
    obtain ⟨u, d2, rfl, hu, hd2⟩ := (Regexp.matches_concat_iff _ _ _).1 h2
    obtain ⟨c, rfl, hc⟩ := (hdot u).1 hu
    exact ⟨sign, d1, c, d2, by simp, (hsign sign).1 hs, (hdig d1).1 hd1, hc, (hdig d2).1 hd2⟩
  · rintro ⟨sign, d1, c, d2, rfl, hs, hd1, hc, hd2⟩
    have e : sign ++ d1 ++ [c] ++ d2 = sign ++ (d1 ++ ([c] ++ d2)) := by simp
    rw [e]
    exact Regexp.Matches.concat ((hsign sign).2 hs)
      (Regexp.Matches.concat ((hdig d1).2 hd1)
        (Regexp.Matches.concat ((hdot [c]).2 ⟨c, rfl, hc⟩) ((hdig d2).2 hd2)))

theorem matchString_validDecimal_iff (s : GoString) :
    MatchString validDecimal s = true ↔ IsLiteralDecimalText s := by
  rw [MatchString, Regexp.fullMatch_iff, matches_validDecimal_iff]
  rfl

/-- C4: `DecimalFromString s` succeeds (nil error) exactly when `s` matches the
literal pattern in full: an optional prefix `+-`, one or more ASCII digits,
exactly one character other than newline, one or more ASCII digits. On
success the Decimal stores `s`; for every other `s` the result is the nil
Decimal with `invalidDecimalError`. -/
theorem DecimalFromString_spec (s : GoString) :
    ((DecimalFromString s).2 = none ↔ IsLiteralDecimalText s) ∧
    (IsLiteralDecimalText s → DecimalFromString s = (some { Plaintext := s }, none)) ∧
    (¬ IsLiteralDecimalText s → DecimalFromString s = (none, some .invalidDecimalError)) := by
  by_cases h : IsLiteralDecimalText s
  · have hm := (matchString_validDecimal_iff s).2 h
    simp [DecimalFromString, hm, h]
  · have hm : MatchString validDecimal s = false := by
      rw [← Bool.not_eq_true, matchString_validDecimal_iff]
      exact h
    simp [DecimalFromString, hm, h]

set_option maxRecDepth 100000 in
/-- Witness for C4 at the text `+-12x345`. -/
theorem DecimalFromString_spec_witness :
    IsLiteralDecimalText (ascii "+-12x345") ∧
    DecimalFromString (ascii "+-12x345") = (some { Plaintext := ascii "+-12x345" }, none) :=
  have h : IsLiteralDecimalText (ascii "+-12x345") :=
    ⟨[0x2B, 0x2D], [0x31, 0x32], 0x78, [0x33, 0x34, 0x35], by decide, by decide, by decide,
      by decide, by decide⟩
  ⟨h, (DecimalFromString_spec (ascii "+-12x345")).2.1 h⟩

set_option maxRecDepth 100000 in
/-- C5 (evaluation of the code at the failing inputs): the digits-only texts
`7` and `42` consist of one or more ASCII digits, yet `DecimalFromString`
rejects them with `invalidDecimalError`: the pattern requires the group
`(.\\d+)`, so the fractional part is not optional. -/
theorem DecimalFromString_rejects_digits_only :
    isUnsignedDecimalText (ascii "7") = true ∧
    DecimalFromString (ascii "7") = (none, some .invalidDecimalError) ∧
    isUnsignedDecimalText (ascii "42") = true ∧
    DecimalFromString (ascii "42") = (none, some .invalidDecimalError) := by
  decide

set_option maxRecDepth 100000 in
/-- C6 (evaluation of the code at the failing inputs): `DecimalFromString`
succeeds on `1x5` and on `+-1.5` and stores them, although neither matches
the decimal grammar `[+-]?digits(.digits)?`: the dot of the pattern is not
escaped and its sign clause is the two-character sequence `+-`. -/
theorem DecimalFromString_accepts_non_decimal :
    DecimalFromString (ascii "1x5") = (some { Plaintext := ascii "1x5" }, none) ∧
    isDecimalGrammarText (ascii "1x5") = false ∧
    DecimalFromString (ascii "+-1.5") = (some { Plaintext := ascii "+-1.5" }, none) ∧
    isDecimalGrammarText (ascii "+-1.5") = false := by
  decide

/-! ## Timestamps from text -/

/-- C7: lenient length fallback. For every text `s` whose length is neither 10
nor 19, `DateTimeFromString s` is a non-nil DateTime with `Milliseconds == 0`,
whatever the local time zone. -/
theorem DateTimeFromString_other_length (Local : Location) (s : GoString)
    (h10 : s.length ≠ 10) (h19 : s.length ≠ 19) :
    DateTimeFromString Local s = some { Milliseconds := 0 } := by
  simp [DateTimeFromString, h10, h19]

/-- Witness for C7 at the text `bad` and at the empty text. -/
theorem DateTimeFromString_other_length_witness :
    DateTimeFromString UTC (ascii "bad") = some { Milliseconds := 0 } ∧
    DateTimeFromString UTC [] = some { Milliseconds := 0 } :=
  ⟨DateTimeFromString_other_length UTC (ascii "bad") (by decide) (by decide),
   DateTimeFromString_other_length UTC [] (by decide) (by decide)⟩

theorem isAsciiDigit_iff (b : Byte) :
    isAsciiDigit b = true ↔ 0x30 ≤ b.val ∧ b.val ≤ 0x39 := by
  simp [isAsciiDigit]

theorem atoiLoop_isSome :
    ∀ (body : GoString) (n : Int),
      (atoiLoop body n).isSome = true ↔ body.all isAsciiDigit = true
  | [], n => by simp [atoiLoop]
  | ch :: t, n => by
    have hb := ch.isLt
    by_cases hd : isAsciiDigit ch = true
    · have h1 := (isAsciiDigit_iff ch).1 hd
      have h2 : ¬ (ch.val + 256 - 0x30) % 256 > 9 := by omega
      simp only [atoiLoop, h2, if_false, List.all_cons, hd, Bool.true_and]
      exact atoiLoop_isSome t _
    · have h1 : ¬ (0x30 ≤ ch.val ∧ ch.val ≤ 0x39) := fun h => hd ((isAsciiDigit_iff ch).2 h)
      have h2 : (ch.val + 256 - 0x30) % 256 > 9 := by omega
      simp only [atoiLoop, h2, if_true, List.all_cons, hd]
      simp

theorem Atoi_error_iff (f : GoString) (hpos : 0 < f.length) (hlen : f.length < 19) :
    (Atoi f).2 = none ↔ isSignedDigits f = true := by
  cases f with
  | nil => simp at hpos
  | cons s0 t =>
    have hl : (s0 :: t).length < 19 := hlen
    simp only [Atoi, hl, if_true, isSignedDigits]
    by_cases hs : s0.val = 0x2B ∨ s0.val = 0x2D
    · have hs2 : s0.val = 0x2D ∨ s0.val = 0x2B := hs.symm
      simp only [hs, hs2, if_true]
      cases t with
      | nil => simp
      | cons t0 t1 =>
        have := atoiLoop_isSome (t0 :: t1) 0
        cases hq : atoiLoop (t0 :: t1) 0 with
        | none => rw [hq] at this; simpa using this
        | some v => rw [hq] at this; simpa using this
    · have hs2 : ¬ (s0.val = 0x2D ∨ s0.val = 0x2B) := fun h => hs h.symm
      simp only [hs, hs2, if_false]
      have := atoiLoop_isSome (s0 :: t) 0
      cases hq : atoiLoop (s0 :: t) 0 with
      | none => rw [hq] at this; simpa using this
      | some v => rw [hq] at this; simpa using this

theorem atoiOrNil_eq_none_iff (f : GoString) :
    atoiOrNil f = none ↔ (Atoi f).2 ≠ none := by
  unfold atoiOrNil
  rcases h : Atoi f with ⟨n, _ | e⟩ <;> simp

theorem slice_length (s : GoString) (a b : Nat) (h : b ≤ s.length) :
    (slice s a b).length = b - a := by
  simp only [slice, List.length_take, List.length_drop]
  omega

theorem subFields_length (s : GoString) (h : s.length = 10 ∨ s.length = 19) :
    ∀ f ∈ subFields s, 0 < f.length ∧ f.length < 19 := by
  intro f hf
  unfold subFields at hf
  rcases h with h | h
  · simp only [h, List.mem_append, List.mem_cons] at hf
    rcases hf with (rfl | rfl | rfl | hf) | hf
    · rw [slice_length s _ _ (by omega)]; omega
    · rw [slice_length s _ _ (by omega)]; omega
    · rw [slice_length s _ _ (by omega)]; omega
    · simp at hf
    · simp at hf
  · simp only [h, List.mem_append, List.mem_cons, if_true] at hf
    rcases hf with (rfl | rfl | rfl | hf) | (rfl | rfl | rfl | hf)
    · rw [slice_length s _ _ (by omega)]; omega
    · rw [slice_length s _ _ (by omega)]; omega
    · rw [slice_length s _ _ (by omega)]; omega
    · simp at hf
    · rw [slice_length s _ _ (by omega)]; omega
    · rw [slice_length s _ _ (by omega)]; omega
    · rw [slice_length s _ _ (by omega)]; omega
    · simp at hf

theorem DateTimeFromString_eq_none_iff (Local : Location) (s : GoString)
    (h : s.length = 10 ∨ s.length = 19) :
    DateTimeFromString Local s = none ↔ ∃ f ∈ subFields s, atoiOrNil f = none := by
  unfold DateTimeFromString subFields
  rcases h with h | h
  · simp only [h, true_or, if_true]
    cases h1 : atoiOrNil (slice s 0 4) <;> cases h2 : atoiOrNil (slice s 5 7) <;>
      cases h3 : atoiOrNil (slice s 8 10) <;> simp [h1, h2, h3]
  · simp only [h, or_true, if_true]
    cases h1 : atoiOrNil (slice s 0 4) <;> cases h2 : atoiOrNil (slice s 5 7) <;>
      cases h3 : atoiOrNil (slice s 8 10) <;> cases h4 : atoiOrNil (slice s 11 13) <;>
      cases h5 : atoiOrNil (slice s 14 16) <;> cases h6 : atoiOrNil (slice s 17 19) <;>
      simp [h1, h2, h3, h4, h5, h6]

/-- C8: for every text `s` of length 10 or 19, `DateTimeFromString s` is nil
exactly when `strconv.Atoi` fails on at least one of the extracted sub-fields
(`s[0:4]`, `s[5:7]`, `s[8:10]` and, for length 19 only, `s[11:13]`,
`s[14:16]`, `s[17:19]`), and `Atoi` succeeds on a sub-field exactly when it is
an optional `+` or `-` followed by one or more ASCII digits. Hence when every
sub-field parses the result is non-nil, whatever the numeric values. -/
theorem DateTimeFromString_nil_iff (Local : Location) (s : GoString)
    (h : s.length = 10 ∨ s.length = 19) :
    (DateTimeFromString Local s = none ↔ ∃ f ∈ subFields s, (Atoi f).2 ≠ none) ∧
    (∀ f ∈ subFields s, ((Atoi f).2 = none ↔ isSignedDigits f = true)) ∧
    (DateTimeFromString Local s = none ↔ ∃ f ∈ subFields s, isSignedDigits f = false) := by
  have hf : ∀ f ∈ subFields s, ((Atoi f).2 = none ↔ isSignedDigits f = true) := by
    intro f hf
    obtain ⟨h1, h2⟩ := subFields_length s h f hf
    exact Atoi_error_iff f h1 h2
  have h1 : DateTimeFromString Local s = none ↔ ∃ f ∈ subFields s, (Atoi f).2 ≠ none := by
    rw [DateTimeFromString_eq_none_iff Local s h]
    simp only [atoiOrNil_eq_none_iff]
  refine ⟨h1, hf, ?_⟩
  rw [h1]
  constructor
  · rintro ⟨f, hm, hn⟩
    refine ⟨f, hm, ?_⟩
    rw [← Bool.not_eq_true, ← hf f hm]
    exact hn
  · rintro ⟨f, hm, hn⟩
    refine ⟨f, hm, ?_⟩
    intro hc
    rw [(hf f hm).1 hc] at hn
    cases hn

set_option maxRecDepth 100000 in
/-- Witness for C8 at `2024-1x-15` (nil: the month field `1x` does not parse)
and at `2024-99-99 99:99:99` (non-nil although every field is out of range). -/
theorem DateTimeFromString_nil_iff_witness :
    (DateTimeFromString UTC (ascii "2024-1x-15") = none ↔
      ∃ f ∈ subFields (ascii "2024-1x-15"), isSignedDigits f = false) ∧
    DateTimeFromString UTC (ascii "2024-1x-15") = none ∧
    (DateTimeFromString UTC (ascii "2024-99-99 99:99:99") = none ↔
      ∃ f ∈ subFields (ascii "2024-99-99 99:99:99"), isSignedDigits f = false) ∧
    DateTimeFromString UTC (ascii "2024-99-99 99:99:99") ≠ none :=
  ⟨(DateTimeFromString_nil_iff UTC (ascii "2024-1x-15") (by decide)).2.2,
   by decide,
   (DateTimeFromString_nil_iff UTC (ascii "2024-99-99 99:99:99") (by decide)).2.2,
   by decide⟩

/-- C9: date-only default time. For every text `d` of length 10,
`DateTimeFromString(d)` and `DateTimeFromString(d + " 12:00:00")` give the
same outcome in every time zone: both nil, or both non-nil with the same
`Milliseconds`. -/
theorem DateTimeFromString_date_only (Local : Location) (d : GoString)
    (h : d.length = 10) :
    DateTimeFromString Local d = DateTimeFromString Local (d ++ ascii " 12:00:00") := by
  match d, h with
  | [a0, a1, a2, a3, a4, a5, a6, a7, a8, a9], _ =>
    have e1 : slice ([a0, a1, a2, a3, a4, a5, a6, a7, a8, a9] ++ ascii " 12:00:00") 0 4
        = slice [a0, a1, a2, a3, a4, a5, a6, a7, a8, a9] 0 4 := rfl
    have e2 : slice ([a0, a1, a2, a3, a4, a5, a6, a7, a8, a9] ++ ascii " 12:00:00") 5 7
        = slice [a0, a1, a2, a3, a4, a5, a6, a7, a8, a9] 5 7 := rfl
    have e3 : slice ([a0, a1, a2, a3, a4, a5, a6, a7, a8, a9] ++ ascii " 12:00:00") 8 10
        = slice [a0, a1, a2, a3, a4, a5, a6, a7, a8, a9] 8 10 := rfl
    have e4 : atoiOrNil
        (slice ([a0, a1, a2, a3, a4, a5, a6, a7, a8, a9] ++ ascii " 12:00:00") 11 13)
        = some 12 := rfl
    have e5 : atoiOrNil
        (slice ([a0, a1, a2, a3, a4, a5, a6, a7, a8, a9] ++ ascii " 12:00:00") 14 16)
        = some 0 := rfl
    have e6 : atoiOrNil
        (slice ([a0, a1, a2, a3, a4, a5, a6, a7, a8, a9] ++ ascii " 12:00:00") 17 19)
        = some 0 := rfl
    have l1 : ([a0, a1, a2, a3, a4, a5, a6, a7, a8, a9] ++ ascii " 12:00:00").length = 19 :=
      rfl
    have l2 : [a0, a1, a2, a3, a4, a5, a6, a7, a8, a9].length = 10 := rfl
    simp only [DateTimeFromString, l1, l2, e1, e2, e3, e4, e5, e6]
    simp

set_option maxRecDepth 100000 in
/-- Witness for C9 at the date `2024-03-15` (in UTC, noon of that day). -/
theorem DateTimeFromString_date_only_witness :
    DateTimeFromString UTC (ascii "2024-03-15") =
      DateTimeFromString UTC (ascii "2024-03-15" ++ ascii " 12:00:00") ∧
    DateTimeFromString UTC (ascii "2024-03-15") = some { Milliseconds := 1710504000000 } :=
  ⟨DateTimeFromString_date_only UTC (ascii "2024-03-15") (by decide), by decide⟩

/-! ## Calendar arithmetic of `time.Date` -/

theorem isLeapYear_iff (y : Nat) :
    isLeapYear y = true ↔ y % 4 = 0 ∧ (y % 100 ≠ 0 ∨ y % 400 = 0) := by
  simp [isLeapYear]

theorem daysBeforeYear_closed :
    ∀ (y : Nat), daysBeforeYear y + (y + 99) / 100 = 365 * y + (y + 3) / 4 + (y + 399) / 400
  | 0 => by simp [daysBeforeYear]
  | y + 1 => by
    have ih := daysBeforeYear_closed y
    have hl := isLeapYear_iff y
    simp only [daysBeforeYear, daysInYear]
    by_cases h : isLeapYear y = true
    · rw [if_pos h]
      have := hl.1 h
      omega
    · rw [if_neg h]
      have : ¬ (y % 4 = 0 ∧ (y % 100 ≠ 0 ∨ y % 400 = 0)) := fun hc => h (hl.2 hc)
      omega

theorem daysBeforeYear_1970 : daysBeforeYear 1970 = 719528 := by
  have := daysBeforeYear_closed 1970
  omega

theorem isLeap_natCast (y : Nat) : isLeap (y : Int) = isLeapYear y := by
  have hz : ∀ n : Nat, ((n : Int) == 0) = (n == 0) := by
    intro n
    cases n <;> rfl
  have e4 : Int.tmod (y : Int) 4 = ((y % 4 : Nat) : Int) := (Int.ofNat_tmod y 4).symm
  have e100 : Int.tmod (y : Int) 100 = ((y % 100 : Nat) : Int) := (Int.ofNat_tmod y 100).symm
  have e400 : Int.tmod (y : Int) 400 = ((y % 400 : Nat) : Int) := (Int.ofNat_tmod y 400).symm
  simp only [isLeap, isLeapYear, e4, e100, e400, bne, hz]

theorem norm_in_range (hi lo base : Int) (h0 : 0 ≤ lo) (h1 : lo < base) :
    norm hi lo base = (hi, lo) := by
  have e1 : ¬ lo < 0 := by omega
  have e2 : ¬ lo ≥ base := by omega
  simp [norm, e1, e2]

/-- The index `month-1` at which `time.Date` reads the table `daysBefore` is
within the table (0 to 11) for every `year` and `month`, so the read cannot
fail whatever the parsed fields are. -/
theorem norm_month_index (year month : Int) :
    0 ≤ (norm year (month - 1) 12).2 ∧ (norm year (month - 1) 12).2 < 12 := by
  unfold norm
  by_cases h : month - 1 < 0
  · have e : Int.tdiv (-(month - 1) - 1) 12 = (-(month - 1) - 1) / 12 :=
      Int.tdiv_eq_ediv (by omega) (by omega)
    simp only [h, if_true, e]
    have h2 : ¬ (month - 1 + ((-(month - 1) - 1) / 12 + 1) * 12 ≥ 12) := by omega
    simp only [h2, if_false]
    omega
  · simp only [h, if_false]
    by_cases h2 : month - 1 ≥ 12
    · have e : Int.tdiv (month - 1) 12 = (month - 1) / 12 :=
        Int.tdiv_eq_ediv (by omega) (by omega)
      simp only [h2, if_true, e]
      omega
    · simp only [h2, if_false]
      omega

/-- Days from the absolute epoch of package `time` to 1 January of year `y`,
as the cycle decomposition of `time.Date` computes them, against the
year-by-year count. -/
theorem absDays_eq (y : Nat) :
    146097 * (((y : Int) + 292277022399) / 400)
      + 36524 * ((((y : Int) + 292277022399) % 400) / 100)
      + 1461 * (((((y : Int) + 292277022399) % 400) % 100) / 4)
      + 365 * (((((y : Int) + 292277022399) % 400) % 100) % 4)
    = 106751990353566 + (daysBeforeYear y : Int) := by
  have := daysBeforeYear_closed y
  omega

theorem digitChar_val (n : Nat) : (digitChar n).val = 48 + n % 10 := by
  show (0x30 + n % 10) % 256 = 48 + n % 10
  omega

theorem atoiLoop_digit (n : Nat) (t : GoString) (acc : Int) :
    atoiLoop (digitChar n :: t) acc = atoiLoop t (acc * 10 + ((n % 10 : Nat) : Int)) := by
  have h := digitChar_val n
  have h3 : ((digitChar n).val + 256 - 0x30) % 256 = n % 10 := by omega
  simp only [atoiLoop]
  rw [h3, if_neg (by omega)]

theorem atoiOrNil_fourDigits (y : Nat) (hy : y ≤ 9999) :
    atoiOrNil (fourDigits y) = some (y : Int) := by
  have h := digitChar_val (y / 1000)
  have hs : ¬ ((digitChar (y / 1000)).val = 0x2D ∨ (digitChar (y / 1000)).val = 0x2B) := by
    omega
  have hs2 : ¬ (digitChar (y / 1000)).val = 0x2D := by omega
  have hl : [digitChar (y / 1000), digitChar (y / 100), digitChar (y / 10), digitChar y].length
      < 19 := by simp
  have hv : (((0 * 10 + ((y / 1000 % 10 : Nat) : Int)) * 10 + ((y / 100 % 10 : Nat) : Int)) * 10
      + ((y / 10 % 10 : Nat) : Int)) * 10 + ((y % 10 : Nat) : Int) = (y : Int) := by omega
  simp only [atoiOrNil, Atoi, fourDigits, hl, hs, if_true, if_false]
  simp only [atoiLoop_digit]
  simp only [atoiLoop, hv, hs2, if_false]
  simp

theorem atoiOrNil_twoDigits (n : Nat) (hn : n ≤ 99) :
    atoiOrNil (twoDigits n) = some (n : Int) := by
  have h := digitChar_val (n / 10)
  have hs : ¬ ((digitChar (n / 10)).val = 0x2D ∨ (digitChar (n / 10)).val = 0x2B) := by
    omega
  have hs2 : ¬ (digitChar (n / 10)).val = 0x2D := by omega
  have hl : [digitChar (n / 10), digitChar n].length < 19 := by simp
  have hv : (0 * 10 + ((n / 10 % 10 : Nat) : Int)) * 10 + ((n % 10 : Nat) : Int) = (n : Int) := by
    omega
  simp only [atoiOrNil, Atoi, twoDigits, hl, hs, if_true, if_false]
  simp only [atoiLoop_digit]
  simp only [atoiLoop, hv, hs2, if_false]
  simp

theorem wrapU64_eq (x : Int) (h0 : 0 ≤ x) (h1 : x < 18446744073709551616) : wrapU64 x = x := by
  unfold wrapU64
  omega

theorem wrapI64_eq (x : Int) (h0 : -9223372036854775808 ≤ x) (h1 : x ≤ 9223372036854775807) :
    wrapI64 x = x := by
  unfold wrapI64
  omega

theorem wrapI64_add_wrapI64 (x c : Int) : wrapI64 (wrapI64 x + c) = wrapI64 (x + c) := by
  unfold wrapI64
  omega

theorem daysSinceEpoch_natCast (y : Nat) (hy : y ≤ 9999) :
    daysSinceEpoch (y : Int) = 106751990353566 + (daysBeforeYear y : Int) := by
  have e0 : wrapU64 ((y : Int) - absoluteZeroYear) = (y : Int) + 292277022399 := by
    rw [wrapU64_eq _ (by unfold absoluteZeroYear; omega) (by unfold absoluteZeroYear; omega)]
    unfold absoluteZeroYear
    omega
  have e1 : wrapU64 ((y : Int) + 292277022399 - 400 * (((y : Int) + 292277022399) / 400))
      = ((y : Int) + 292277022399) % 400 := by
    rw [wrapU64_eq _ (by omega) (by omega)]
    omega
  have e2 : wrapU64 (146097 * (((y : Int) + 292277022399) / 400))
      = 146097 * (((y : Int) + 292277022399) / 400) := wrapU64_eq _ (by omega) (by omega)
  have e3 : wrapU64 (((y : Int) + 292277022399) % 400
        - 100 * ((((y : Int) + 292277022399) % 400) / 100))
      = ((y : Int) + 292277022399) % 400 % 100 := by
    rw [wrapU64_eq _ (by omega) (by omega)]
    omega
  have e4 : wrapU64 (36524 * ((((y : Int) + 292277022399) % 400) / 100))
      = 36524 * ((((y : Int) + 292277022399) % 400) / 100) := wrapU64_eq _ (by omega) (by omega)
  have e5 : wrapU64 (146097 * (((y : Int) + 292277022399) / 400)
        + 36524 * ((((y : Int) + 292277022399) % 400) / 100))
      = 146097 * (((y : Int) + 292277022399) / 400)
        + 36524 * ((((y : Int) + 292277022399) % 400) / 100) :=
    wrapU64_eq _ (by omega) (by omega)
  have e6 : wrapU64 (((y : Int) + 292277022399) % 400 % 100
        - 4 * ((((y : Int) + 292277022399) % 400 % 100) / 4))
      = ((y : Int) + 292277022399) % 400 % 100 % 4 := by
    rw [wrapU64_eq _ (by omega) (by omega)]
    omega
  have e7 : wrapU64 (1461 * ((((y : Int) + 292277022399) % 400 % 100) / 4))
      = 1461 * ((((y : Int) + 292277022399) % 400 % 100) / 4) :=
    wrapU64_eq _ (by omega) (by omega)
  have e8 : wrapU64 (146097 * (((y : Int) + 292277022399) / 400)
        + 36524 * ((((y : Int) + 292277022399) % 400) / 100)
        + 1461 * ((((y : Int) + 292277022399) % 400 % 100) / 4))
      = 146097 * (((y : Int) + 292277022399) / 400)
        + 36524 * ((((y : Int) + 292277022399) % 400) / 100)
        + 1461 * ((((y : Int) + 292277022399) % 400 % 100) / 4) :=
    wrapU64_eq _ (by omega) (by omega)
  have e9 : wrapU64 (365 * (((y : Int) + 292277022399) % 400 % 100 % 4))
      = 365 * (((y : Int) + 292277022399) % 400 % 100 % 4) :=
    wrapU64_eq _ (by omega) (by omega)
  have e10 : wrapU64 (146097 * (((y : Int) + 292277022399) / 400)
        + 36524 * ((((y : Int) + 292277022399) % 400) / 100)
        + 1461 * ((((y : Int) + 292277022399) % 400 % 100) / 4)
        + 365 * (((y : Int) + 292277022399) % 400 % 100 % 4))
      = 146097 * (((y : Int) + 292277022399) / 400)
        + 36524 * ((((y : Int) + 292277022399) % 400) / 100)
        + 1461 * ((((y : Int) + 292277022399) % 400 % 100) / 4)
        + 365 * (((y : Int) + 292277022399) % 400 % 100 % 4) :=
    wrapU64_eq _ (by omega) (by omega)
  simp only [daysSinceEpoch, e0, e1, e2, e3, e4, e5, e6, e7, e8, e9, e10]
  exact absDays_eq y

theorem daysBefore_month (y mo : Nat) (h1 : 1 ≤ mo) (h12 : mo ≤ 12) :
    daysBefore ((mo : Int) - 1 + 1 - 1)
        + (if isLeapYear y = true ∧ (mo : Int) - 1 + 1 ≥ 3 then 1 else 0)
      = (daysBeforeMonth y mo : Int) ∧
    0 ≤ daysBefore ((mo : Int) - 1 + 1 - 1) ∧ daysBefore ((mo : Int) - 1 + 1 - 1) ≤ 334 ∧
    daysInMonth y mo ≤ 31 := by
  interval_cases mo <;> cases hl : isLeapYear y <;>
    simp [daysBefore, daysBeforeMonth, daysInMonth, hl]

theorem daysBeforeYear_le (y : Nat) : daysBeforeYear y ≤ 366 * y := by
  have := daysBeforeYear_closed y
  omega

theorem absSeconds_civil (y mo d h mi s : Nat) (hc : IsCivil y mo d h mi s) :
    wrapI64 (wrapI64 (absSeconds y ((mo : Int) - 1 + 1) d h mi s)
        + (absoluteToInternal + internalToUnix)) = civilSeconds y mo d h mi s ∧
    -62167219200 ≤ civilSeconds y mo d h mi s ∧ civilSeconds y mo d h mi s < 253402387200 := by
  obtain ⟨hy, hmo1, hmo12, hd1, hd31, hh, hmi, hs⟩ := hc
  have ⟨hdb, hdb0, hdb1, hdim⟩ := daysBefore_month y mo hmo1 hmo12
  have hdy := daysBeforeYear_le y
  have h70 := daysBeforeYear_1970
  have hcl := daysBeforeYear_closed y
  rw [wrapI64_add_wrapI64]
  simp only [absSeconds, daysSinceEpoch_natCast y hy, isLeap_natCast, civilSeconds, h70,
    absoluteToInternal, internalToUnix]
  generalize daysBefore ((mo : Int) - 1 + 1 - 1) = DB at hdb hdb0 hdb1 ⊢
  rw [wrapU64_eq DB hdb0 (by omega)]
  rw [wrapU64_eq (_ + DB) (by omega) (by omega)]
  rw [wrapU64_eq ((d : Int) - 1) (by omega) (by omega)]
  rw [wrapU64_eq ((h : Int) * 3600 + mi * 60 + s) (by omega) (by omega)]
  push_cast
  by_cases hcnd : isLeapYear y = true ∧ (mo : Int) - 1 + 1 ≥ 3
  · rw [if_pos hcnd] at hdb ⊢
    rw [wrapU64_eq (_ + 1) (by omega) (by omega)]
    rw [wrapU64_eq (_ + ((d : Int) - 1)) (by omega) (by omega)]
    rw [wrapU64_eq (_ * 86400) (by omega) (by omega)]
    rw [wrapU64_eq _ (by omega) (by omega)]
    rw [wrapI64_eq _ (by omega) (by omega)]
    omega
  · rw [if_neg hcnd] at hdb ⊢
    rw [wrapU64_eq (_ + ((d : Int) - 1)) (by omega) (by omega)]
    rw [wrapU64_eq (_ * 86400) (by omega) (by omega)]
    rw [wrapU64_eq _ (by omega) (by omega)]
    rw [wrapI64_eq _ (by omega) (by omega)]
    omega

theorem UTC_wellFormed : UTC.WellFormed 0 := by
  refine ⟨by decide, by decide, fun u => ⟨by simp [UTC], by simp [UTC]⟩, ?_⟩
  intro u h1 h2
  refine ⟨?_, ?_, ?_, fun v _ _ => rfl⟩
  · simp only [UTC]; omega
  · simp only [UTC]; omega
  · simp only [UTC]; omega

theorem NewYork_wellFormed : NewYork.WellFormed 18000 := by
  refine ⟨by decide, by decide, ?_, ?_⟩
  · intro u
    simp only [NewYork]
    split_ifs <;> constructor <;> decide
  · intro u h1 h2
    simp only [NewYork]
    split_ifs <;> dsimp only <;> refine ⟨by omega, by omega, by omega, ?_⟩ <;>
      intro v hv1 hv2 <;> split_ifs <;> first | rfl | omega

theorem Date_reads (Local : Location) (B : Int) (y mo d h mi s : Nat) (ustar : Int)
    (hwf : Local.WellFormed B) (hc : IsCivil y mo d h mi s)
    (hr : Local.ReadsAs ustar (civilSeconds y mo d h mi s)) :
    Local.ReadsAs (Date y mo d h mi s 0 Local).Unix (civilSeconds y mo d h mi s) ∧
    civilSeconds y mo d h mi s - B ≤ (Date y mo d h mi s 0 Local).Unix ∧
    (Date y mo d h mi s 0 Local).Unix ≤ civilSeconds y mo d h mi s + B := by
  obtain ⟨habs, hlo, hhi⟩ := absSeconds_civil y mo d h mi s hc
  obtain ⟨hy, hmo1, hmo12, hd1, hd31, hh, hmi, hs⟩ := hc
  obtain ⟨hB0, hB1, hoff, hper⟩ := hwf
  have n1 : norm (y : Int) ((mo : Int) - 1) 12 = ((y : Int), (mo : Int) - 1) :=
    norm_in_range _ _ _ (by omega) (by omega)
  have n2 : norm (s : Int) 0 1000000000 = ((s : Int), (0 : Int)) :=
    norm_in_range _ _ _ (by omega) (by omega)
  have n3 : norm (mi : Int) (s : Int) 60 = ((mi : Int), (s : Int)) :=
    norm_in_range _ _ _ (by omega) (by omega)
  have n4 : norm (h : Int) (mi : Int) 60 = ((h : Int), (mi : Int)) :=
    norm_in_range _ _ _ (by omega) (by omega)
  have n5 : norm (d : Int) (h : Int) 24 = ((d : Int), (h : Int)) :=
    norm_in_range _ _ _ (by omega) (by omega)
  simp only [Date, Time.Unix, n1, n2, n3, n4, n5, habs]
  generalize civilSeconds y mo d h mi s = W at hlo hhi hr ⊢
  unfold Location.ReadsAs at hr ⊢
  obtain ⟨hw1, hw2, hw3, hwc⟩ := hper W (by omega) (by omega)
  have hoW := hoff W
  have hoS := hoff ustar
  obtain ⟨hs1, hs2, hs3, hsc⟩ := hper ustar (by omega) (by omega)
  by_cases h0 : (Local.lookup W).1 = 0
  · simp only [ne_eq, h0, not_true_eq_false, if_false]
    omega
  · have hutc : wrapI64 (W - (Local.lookup W).1) = W - (Local.lookup W).1 :=
      wrapI64_eq _ (by omega) (by omega)
    simp only [ne_eq, h0, not_false_eq_true, if_true, hutc]
    by_cases hC : W - (Local.lookup W).1 < (Local.lookup W).2.1
    · -- the reading lies in the period before
      have hst : wrapI64 ((Local.lookup W).2.1 - 1) = (Local.lookup W).2.1 - 1 :=
        wrapI64_eq _ (by omega) (by omega)
      simp only [hC, if_true, hst]
      obtain ⟨hp1, hp2, hp3, hpc⟩ := hper ((Local.lookup W).2.1 - 1) (by omega) (by omega)
      have hoP := hoff ((Local.lookup W).2.1 - 1)
      have hadj : (Local.lookup ((Local.lookup W).2.1 - 1)).2.2 ≤ (Local.lookup W).2.1 := by
        by_contra hcon
        have e1 := hpc (Local.lookup W).2.1 (by omega) (by omega)
        have e2 := hwc (Local.lookup W).2.1 (by omega) (by omega)
        have e3 : (Local.lookup ((Local.lookup W).2.1 - 1)).2.1 = (Local.lookup W).2.1 := by
          rw [← e1, e2]
        omega
      have hlt : ustar < (Local.lookup W).2.1 := by
        by_contra hcon
        by_cases hin : ustar < (Local.lookup W).2.2
        · have e := hwc ustar (by omega) hin
          rw [e] at hr
          omega
        · omega
      have e := hpc ustar (by omega) (by omega)
      rw [e] at hr
      have hu : wrapI64 (W - (Local.lookup ((Local.lookup W).2.1 - 1)).1) = ustar := by
        rw [wrapI64_eq _ (by omega) (by omega)]
        omega
      rw [hu, e]
      omega
    · by_cases hD : W - (Local.lookup W).1 ≥ (Local.lookup W).2.2
      · -- the reading lies in the period after
        simp only [hC, if_false, hD, if_true]
        obtain ⟨hp1, hp2, hp3, hpc⟩ := hper (Local.lookup W).2.2 (by omega) (by omega)
        have hoP := hoff (Local.lookup W).2.2
        have hadj : (Local.lookup W).2.2 ≤ (Local.lookup (Local.lookup W).2.2).2.1 := by
          by_contra hcon
          have e1 := hpc ((Local.lookup W).2.2 - 1) (by omega) (by omega)
          have e2 := hwc ((Local.lookup W).2.2 - 1) (by omega) (by omega)
          have e3 : (Local.lookup (Local.lookup W).2.2).2.2 = (Local.lookup W).2.2 := by
            rw [← e1, e2]
          omega
        have hge : (Local.lookup W).2.2 ≤ ustar := by
          by_contra hcon
          by_cases hin : (Local.lookup W).2.1 ≤ ustar
          · have e := hwc ustar hin (by omega)
            rw [e] at hr
            omega
          · omega
        have e := hpc ustar (by omega) (by omega)
        rw [e] at hr
        have hu : wrapI64 (W - (Local.lookup (Local.lookup W).2.2).1) = ustar := by
          rw [wrapI64_eq _ (by omega) (by omega)]
          omega
        rw [hu, e]
        omega
      · simp only [hC, if_false, hD]
        rw [wrapI64_eq _ (by omega) (by omega)]
        have e := hwc (W - (Local.lookup W).1) (by omega) (by omega)
        rw [e]
        omega

theorem formatDateTime_fields (y mo d h mi s : Nat) :
    (formatDateTime y mo d h mi s).length = 19 ∧
    slice (formatDateTime y mo d h mi s) 0 4 = fourDigits y ∧
    slice (formatDateTime y mo d h mi s) 5 7 = twoDigits mo ∧
    slice (formatDateTime y mo d h mi s) 8 10 = twoDigits d ∧
    slice (formatDateTime y mo d h mi s) 11 13 = twoDigits h ∧
    slice (formatDateTime y mo d h mi s) 14 16 = twoDigits mi ∧
    slice (formatDateTime y mo d h mi s) 17 19 = twoDigits s :=
  ⟨rfl, rfl, rfl, rfl, rfl, rfl, rfl⟩

theorem civilSeconds_gap :
    civilSeconds 2024 3 10 1 30 0 = 1710034200 ∧
    civilSeconds 2024 3 10 2 30 0 = 1710037800 ∧
    civilSeconds 2024 3 10 3 30 0 = 1710041400 := by
  have h1 := daysBeforeYear_closed 2024
  have h2 := daysBeforeYear_1970
  have h3 : daysBeforeMonth 2024 3 = 60 := by decide
  simp only [civilSeconds, h3, h2]
  omega

theorem NewYork_gap (u : Int) : ¬ NewYork.ReadsAs u 1710037800 := by
  simp only [Location.ReadsAs, NewYork]
  split_ifs <;> dsimp only <;> omega

set_option maxRecDepth 100000 in
/-- C10 (counterexample): the text `2024-03-10 02:30:00` has six digit fields
forming a valid calendar date and time of day, but in the New York zone the
clock jumps from 01:59:59 to 03:00:00 on that day, so that no instant has this
reading there. `DateTimeFromString` returns 1710052200000, the very result it
returns for `2024-03-10 01:30:00`: 1000 times the seconds to the instant whose
local reading is 01:30:00, not to an instant that reads 02:30:00. -/
theorem DateTimeFromString_gap :
    IsCivil 2024 3 10 2 30 0 ∧
    formatDateTime 2024 3 10 2 30 0 = ascii "2024-03-10 02:30:00" ∧
    DateTimeFromString NewYork (ascii "2024-03-10 02:30:00") =
      some { Milliseconds := 1710052200000 } ∧
    DateTimeFromString NewYork (ascii "2024-03-10 01:30:00") =
      some { Milliseconds := 1710052200000 } ∧
    NewYork.ReadsAs 1710052200 (civilSeconds 2024 3 10 1 30 0) ∧
    ¬ ∃ u : Int, NewYork.ReadsAs u (civilSeconds 2024 3 10 2 30 0) := by
  refine ⟨by decide, by decide, by decide, by decide, ?_, ?_⟩
  · rw [civilSeconds_gap.1]
    decide
  · rw [civilSeconds_gap.2.1]
    rintro ⟨u, hu⟩
    exact NewYork_gap u hu

theorem DateTimeFromString_Date (Local : Location) (y mo d h mi s : Nat)
    (hc : IsCivil y mo d h mi s) :
    DateTimeFromString Local (formatDateTime y mo d h mi s) =
      some { Milliseconds := wrapI64 ((Date y mo d h mi s 0 Local).Unix * 1000) } := by
  obtain ⟨hy, hmo1, hmo12, hd1, hd31, hh, hmi, hs⟩ := hc
  obtain ⟨_, _, _, hdim⟩ := daysBefore_month y mo hmo1 hmo12
  obtain ⟨hl, f1, f2, f3, f4, f5, f6⟩ := formatDateTime_fields y mo d h mi s
  simp only [DateTimeFromString, hl, f1, f2, f3, f4, f5, f6, or_true, if_true,
    atoiOrNil_fourDigits y hy, atoiOrNil_twoDigits mo (by omega),
    atoiOrNil_twoDigits d (by omega), atoiOrNil_twoDigits h (by omega),
    atoiOrNil_twoDigits mi (by omega), atoiOrNil_twoDigits s (by omega)]
  simp only [Option.bind_eq_bind, Option.some_bind, Option.pure_def]

set_option maxRecDepth 100000 in
/-- C10 (amended): for every 19-character text `YYYY-MM-DD HH:MM:SS` whose
six fields are the digits of a valid calendar date (years 0000 to 9999) and
time of day that some instant `ustar` shows as its wall-clock reading in the
local zone, `DateTimeFromString` returns `Milliseconds` equal to exactly 1000
times the number of seconds `u` from the Unix epoch to an instant with that
reading in the local zone, to `ustar` itself when no other instant has the
reading, and the product stays within `int64`. The local zone is any
succession of adjoining periods of constant offset, each at least twice as
long as the largest offset magnitude. With the local zone UTC every valid
text qualifies and the result is 1000 times the seconds from 1970-01-01
00:00:00 to the date and time read; `1970-01-01 00:00:00` gives 0 and
`2024-03-15 08:30:00` gives 1710491400000. -/
theorem DateTimeFromString_civil :
    (∀ (Local : Location) (B : Int) (y mo d h mi s : Nat) (ustar : Int),
      Local.WellFormed B →
      IsCivil y mo d h mi s →
      Local.ReadsAs ustar (civilSeconds y mo d h mi s) →
      ∃ u : Int,
        DateTimeFromString Local (formatDateTime y mo d h mi s) =
          some { Milliseconds := 1000 * u } ∧
        Local.ReadsAs u (civilSeconds y mo d h mi s) ∧
        ((∀ v : Int, Local.ReadsAs v (civilSeconds y mo d h mi s) → v = ustar) → u = ustar) ∧
        -9223372036854775808 ≤ 1000 * u ∧ 1000 * u ≤ 9223372036854775807) ∧
    (∀ y mo d h mi s : Nat, IsCivil y mo d h mi s →
      DateTimeFromString UTC (formatDateTime y mo d h mi s) =
        some { Milliseconds := 1000 * civilSeconds y mo d h mi s }) ∧
    DateTimeFromString UTC (ascii "1970-01-01 00:00:00") = some { Milliseconds := 0 } ∧
    DateTimeFromString UTC (ascii "2024-03-15 08:30:00") =
      some { Milliseconds := 1710491400000 } := by
  have main : ∀ (Local : Location) (B : Int) (y mo d h mi s : Nat) (ustar : Int),
      Local.WellFormed B →
      IsCivil y mo d h mi s →
      Local.ReadsAs ustar (civilSeconds y mo d h mi s) →
      ∃ u : Int,
        DateTimeFromString Local (formatDateTime y mo d h mi s) =
          some { Milliseconds := 1000 * u } ∧
        Local.ReadsAs u (civilSeconds y mo d h mi s) ∧
        ((∀ v : Int, Local.ReadsAs v (civilSeconds y mo d h mi s) → v = ustar) → u = ustar) ∧
        -9223372036854775808 ≤ 1000 * u ∧ 1000 * u ≤ 9223372036854775807 := by
    intro Local B y mo d h mi s ustar hwf hc hr
    obtain ⟨hD, hDlo, hDhi⟩ := Date_reads Local B y mo d h mi s ustar hwf hc hr
    obtain ⟨_, hlo, hhi⟩ := absSeconds_civil y mo d h mi s hc
    have hB := hwf.2.1
    have hw : wrapI64 ((Date y mo d h mi s 0 Local).Unix * 1000)
        = 1000 * (Date y mo d h mi s 0 Local).Unix := by
      rw [wrapI64_eq _ (by omega) (by omega)]
      omega
    refine ⟨(Date y mo d h mi s 0 Local).Unix, ?_, hD, fun huniq => huniq _ hD,
      by omega, by omega⟩
    rw [DateTimeFromString_Date Local y mo d h mi s hc, hw]
  refine ⟨main, ?_, by decide, by decide⟩
  intro y mo d h mi s hc
  obtain ⟨u, h1, h2, _⟩ := main UTC 0 y mo d h mi s (civilSeconds y mo d h mi s)
    UTC_wellFormed hc (by simp [Location.ReadsAs, UTC])
  have hu : u = civilSeconds y mo d h mi s := by
    simpa [Location.ReadsAs, UTC] using h2
  rw [h1, hu]

set_option maxRecDepth 100000 in
/-- Witness for C10 at `2024-03-10 03:30:00` in the New York zone, one and a
half hours after the clock has jumped forward: the result is 1710055800000,
the instant 07:30:00 UTC, found in the period after the one in force at the
reading. -/
theorem DateTimeFromString_civil_witness :
    IsCivil 2024 3 10 3 30 0 ∧
    formatDateTime 2024 3 10 3 30 0 = ascii "2024-03-10 03:30:00" ∧
    NewYork.ReadsAs 1710055800 (civilSeconds 2024 3 10 3 30 0) ∧
    DateTimeFromString NewYork (ascii "2024-03-10 03:30:00") =
      some { Milliseconds := 1710055800000 } ∧
    ∃ u : Int,
      DateTimeFromString NewYork (formatDateTime 2024 3 10 3 30 0) =
        some { Milliseconds := 1000 * u } ∧
      NewYork.ReadsAs u (civilSeconds 2024 3 10 3 30 0) ∧
      ((∀ v : Int, NewYork.ReadsAs v (civilSeconds 2024 3 10 3 30 0) → v = 1710055800) →
        u = 1710055800) ∧
      -9223372036854775808 ≤ 1000 * u ∧ 1000 * u ≤ 9223372036854775807 :=
  ⟨by decide, by decide, by rw [civilSeconds_gap.2.2]; decide, by decide,
   DateTimeFromString_civil.1 NewYork 18000 2024 3 10 3 30 0 1710055800
     NewYork_wellFormed (by decide) (by rw [civilSeconds_gap.2.2]; decide)⟩

theorem civilSeconds_epoch : civilSeconds 1970 1 1 0 0 5 = 5 := by
  have h2 := daysBeforeYear_1970
  have h3 : daysBeforeMonth 1970 1 = 0 := by decide
  simp only [civilSeconds, h3, h2]
  omega

set_option maxRecDepth 100000 in
/-- The length of the zone periods matters: in the zone `ShortPeriod` the
reading `1970-01-01 00:00:05` belongs to the instant -95, two periods before
the one in force at the reading, while `time.Date` looks one period back only
and `DateTimeFromString` returns -45000, an instant that does not show this
reading. -/
theorem DateTimeFromString_short_period :
    DateTimeFromString ShortPeriod (ascii "1970-01-01 00:00:05") =
      some { Milliseconds := -45000 } ∧
    ShortPeriod.ReadsAs (-95) (civilSeconds 1970 1 1 0 0 5) ∧
    ¬ ShortPeriod.ReadsAs (-45) (civilSeconds 1970 1 1 0 0 5) := by
  rw [civilSeconds_epoch]
  decide

/-! ## Timestamps and native time values -/

theorem Unix_zero_nsec (sec : Int) : Unix sec 0 = { sec := sec, nsec := 0 } := by
  simp [Unix]

theorem tdiv_eq_quotTowardZero (x : Int) : Int.tdiv x 1000 = quotTowardZero x := by
  unfold quotTowardZero
  by_cases h : 0 ≤ x
  · rw [if_pos h, Int.tdiv_eq_ediv h (by omega)]
    omega
  · rw [if_neg h]
    have e : x = -(-x) := by omega
    rw [e, Int.neg_tdiv, Int.tdiv_eq_ediv (by omega) (by omega)]
    omega

/-- C13: for every DateTime `m`, `TimeFromDateTime` returns the instant whose
Unix seconds are `m.Milliseconds / 1000` with the quotient truncated toward
zero and whose nanoseconds are 0. For a negative value that is not a multiple
of 1000 this is one more than the quotient rounded down; `Milliseconds =
-1500` gives -1 second and `Milliseconds = -1` gives 0 seconds. -/
theorem TimeFromDateTime_truncates (m : DateTime) :
    m.TimeFromDateTime.Unix = quotTowardZero m.Milliseconds ∧
    m.TimeFromDateTime.nsec = 0 ∧
    (m.Milliseconds < 0 → m.Milliseconds % 1000 ≠ 0 →
      m.TimeFromDateTime.Unix = m.Milliseconds / 1000 + 1) ∧
    (DateTime.TimeFromDateTime { Milliseconds := -1500 }).Unix = -1 ∧
    (DateTime.TimeFromDateTime { Milliseconds := -1 }).Unix = 0 := by
  have h : m.TimeFromDateTime = { sec := quotTowardZero m.Milliseconds, nsec := 0 } := by
    simp only [DateTime.TimeFromDateTime, Unix_zero_nsec, tdiv_eq_quotTowardZero]
  refine ⟨by rw [h]; rfl, by rw [h], ?_, by decide, by decide⟩
  intro hneg hmod
  rw [h]
  show quotTowardZero m.Milliseconds = _
  unfold quotTowardZero
  rw [if_neg (by omega)]
  omega

/-- Witness for C13 at `Milliseconds = -1500`: truncation gives -1 where
rounding down gives -2. -/
theorem TimeFromDateTime_truncates_witness :
    (DateTime.TimeFromDateTime { Milliseconds := -1500 }).Unix = (-1500 : Int) / 1000 + 1 ∧
    (-1500 : Int) / 1000 = -2 :=
  ⟨(TimeFromDateTime_truncates { Milliseconds := -1500 }).2.2.1 (by decide) (by decide),
   by decide⟩

/-- C12 (counterexample): the native time value with Unix seconds
9223372036854776 and no sub-second part does not survive the round trip: the
`int64` product `t.Unix() * 1000` wraps to -9223372036854775616, whose
quotient by 1000 is -9223372036854775. -/
theorem DateTimeFromTime_roundtrip_overflow :
    Time.IsNative { sec := 9223372036854776, nsec := 0 } ∧
    (DateTimeFromTime { sec := 9223372036854776, nsec := 0 }).Milliseconds
      = -9223372036854775616 ∧
    (DateTimeFromTime { sec := 9223372036854776, nsec := 0 }).TimeFromDateTime.Unix
      = -9223372036854775 ∧
    ¬ ((DateTimeFromTime { sec := 9223372036854776, nsec := 0 }).TimeFromDateTime.Unix
      = Time.Unix { sec := 9223372036854776, nsec := 0 }) := by
  unfold Time.IsNative
  decide

/-- C12 (amended): for every native time value `t` with a zero sub-second
component whose Unix seconds lie within ±9223372036854775 (so that the
`int64` product `t.Unix() * 1000` does not overflow),
`DateTimeFromTime(t).TimeFromDateTime()` is the same whole-second instant as
`t`: its Unix seconds equal `t.Unix()`, its nanoseconds are 0, and
`(t.Unix() * 1000) / 1000 == t.Unix()` in `int64` arithmetic. -/
theorem DateTimeFromTime_roundtrip (t : Time) (hns : t.nsec = 0)
    (hlo : -9223372036854775 ≤ t.Unix) (hhi : t.Unix ≤ 9223372036854775) :
    (DateTimeFromTime t).TimeFromDateTime = t ∧
    (DateTimeFromTime t).TimeFromDateTime.Unix = t.Unix ∧
    (DateTimeFromTime t).TimeFromDateTime.nsec = 0 ∧
    Int.tdiv (wrapI64 (t.Unix * 1000)) 1000 = t.Unix := by
  have hw : wrapI64 (t.Unix * 1000) = t.Unix * 1000 := wrapI64_eq _ (by omega) (by omega)
  have hq : Int.tdiv (t.Unix * 1000) 1000 = t.Unix := by
    rw [tdiv_eq_quotTowardZero]
    unfold quotTowardZero
    split_ifs <;> omega
  have h : (DateTimeFromTime t).TimeFromDateTime = t := by
    simp only [DateTimeFromTime, DateTime.TimeFromDateTime, Unix_zero_nsec, hw, hq]
    cases t
    simp only [Time.Unix] at *
    simp [hns]
  exact ⟨h, by rw [h], by rw [h, hns], by rw [hw, hq]⟩

/-- Witness for C12 at the instant 1710491400 s (2024-03-15 08:30:00 UTC). -/
theorem DateTimeFromTime_roundtrip_witness :
    (DateTimeFromTime { sec := 1710491400, nsec := 0 }).TimeFromDateTime
      = { sec := 1710491400, nsec := 0 } :=
  (DateTimeFromTime_roundtrip { sec := 1710491400, nsec := 0 } rfl (by decide) (by decide)).1

/-! ## GUID construction paths and JSON -/

theorem GuidFromString_length (s : GoString) (g : Guid)
    (h : (GuidFromString s).1 = some g) : g.Guid.length = 16 := by
  by_cases hv : IsGuidText s
  · rw [GuidFromString_of_valid s hv] at h
    simp only [Option.some.injEq] at h
    rw [← h]
    show (hexPairs s).length = 16
    rw [hexPairs_length, hv.1]
  · rw [GuidFromString_of_invalid s hv] at h
    cases h

theorem GuidFromBytes_length (b : List Byte) (g : Guid)
    (h : (GuidFromBytes b).1 = some g) : g.Guid.length = 16 := by
  unfold GuidFromBytes at h
  by_cases hl : b.length = 16
  · simp only [hl, ne_eq, not_true_eq_false, if_false, Option.some.injEq] at h
    rw [← h]
    exact hl
  · simp [hl] at h

theorem ConvertUuid_error_iff (g : Guid) :
    (g.ConvertUuid).2 = none ↔ g.Guid.length = 16 := by
  unfold Guid.ConvertUuid UUID.FromBytes
  by_cases hl : g.Guid.length = 16 <;> simp [hl]

/-- C14: every Guid produced by a construction path holds exactly 16 bytes:
the result of every successful `GuidFromString`, of every successful
`GuidFromBytes`, of `ConvertUuid(id)` for every native UUID `id`, and of
`NewGuid()` whatever UUID the generator returned. `Guid.ConvertUuid` returns a
nil error exactly when the Guid holds 16 bytes, hence on every such Guid, and
an error exactly when the byte count is not 16. -/
theorem Guid_length_invariant :
    (∀ (s : GoString) (g : Guid), (GuidFromString s).1 = some g → g.Guid.length = 16) ∧
    (∀ (b : List Byte) (g : Guid), (GuidFromBytes b).1 = some g → g.Guid.length = 16) ∧
    (∀ id : UUID, (ConvertUuid id).Guid.length = 16) ∧
    (∀ nid : UUID, (NewGuid nid).Guid.length = 16) ∧
    (∀ g : Guid, (g.ConvertUuid).2 = none ↔ g.Guid.length = 16) ∧
    (∀ g : Guid, (g.ConvertUuid).2 ≠ none ↔ g.Guid.length ≠ 16) ∧
    (∀ (s : GoString) (g : Guid), (GuidFromString s).1 = some g → (g.ConvertUuid).2 = none) ∧
    (∀ (b : List Byte) (g : Guid), (GuidFromBytes b).1 = some g → (g.ConvertUuid).2 = none) ∧
    (∀ id : UUID, (ConvertUuid id).ConvertUuid = (id, none)) ∧
    (∀ nid : UUID, (NewGuid nid).ConvertUuid = (nid, none)) := by
  refine ⟨GuidFromString_length, GuidFromBytes_length, fun id => id.size, fun nid => nid.size,
    ConvertUuid_error_iff, fun g => not_congr (ConvertUuid_error_iff g),
    fun s g h => (ConvertUuid_error_iff g).2 (GuidFromString_length s g h),
    fun b g h => (ConvertUuid_error_iff g).2 (GuidFromBytes_length b g h), ?_, ?_⟩
  · intro id
    simp [Guid.ConvertUuid, UUID.FromBytes, ConvertUuid, id.size]
  · intro nid
    simp [Guid.ConvertUuid, UUID.FromBytes, ConvertUuid, NewGuid, nid.size]

set_option maxRecDepth 100000 in
/-- Witness for C14 at the text `00112233445566778899aabbccddeeff`, whose
Guid converts to a native UUID without error, and at a 3-byte Guid, on which
`ConvertUuid` reports an error. -/
theorem Guid_length_invariant_witness :
    (Guid.ConvertUuid { Guid := hexPairs (ascii "00112233445566778899aabbccddeeff") }).2
      = none ∧
    (Guid.ConvertUuid { Guid := [1, 2, 3] }).2 ≠ none :=
  ⟨Guid_length_invariant.2.2.2.2.2.2.1 (ascii "00112233445566778899aabbccddeeff")
      { Guid := hexPairs (ascii "00112233445566778899aabbccddeeff") } (by decide),
   (Guid_length_invariant.2.2.2.2.2.1 { Guid := [1, 2, 3] }).2 (by decide)⟩

set_option maxRecDepth 100000 in
theorem hextable_lowerHexDigit (v : Byte) :
    hextable (v.val >>> 4) = lowerHexDigit (v.val / 16) ∧
    hextable (v.val &&& 0x0F) = lowerHexDigit (v.val % 16) ∧
    ((0x30 ≤ (lowerHexDigit (v.val / 16)).val ∧ (lowerHexDigit (v.val / 16)).val ≤ 0x39) ∨
      (0x61 ≤ (lowerHexDigit (v.val / 16)).val ∧ (lowerHexDigit (v.val / 16)).val ≤ 0x66)) ∧
    ((0x30 ≤ (lowerHexDigit (v.val % 16)).val ∧ (lowerHexDigit (v.val % 16)).val ≤ 0x39) ∨
      (0x61 ≤ (lowerHexDigit (v.val % 16)).val ∧ (lowerHexDigit (v.val % 16)).val ≤ 0x66)) := by
  revert v; decide

theorem EncodeToString_eq_hexText :
    ∀ (bs : List Byte), EncodeToString bs = hexText bs ∧
      (hexText bs).length = 2 * bs.length ∧
      ∀ c ∈ hexText bs, (0x30 ≤ c.val ∧ c.val ≤ 0x39) ∨ (0x61 ≤ c.val ∧ c.val ≤ 0x66)
  | [] => by simp [EncodeToString, hexText]
  | v :: bs => by
    obtain ⟨h1, h2, h3⟩ := EncodeToString_eq_hexText bs
    obtain ⟨e1, e2, e3, e4⟩ := hextable_lowerHexDigit v
    have hc : hexText (v :: bs) =
        lowerHexDigit (v.val / 16) :: lowerHexDigit (v.val % 16) :: hexText bs := by
      simp [hexText]
    rw [EncodeToString_cons, hc, e1, e2, h1]
    refine ⟨rfl, by simp only [List.length_cons, h2]; omega, ?_⟩
    intro c hcm
    simp only [List.mem_cons] at hcm
    rcases hcm with rfl | rfl | hcm
    · exact e3
    · exact e4
    · exact h3 c hcm

/-- C15: for every Guid `g` holding exactly 16 bytes, `g.MarshalJSON()`
returns a nil error and exactly the bytes `{"guid": "H"}`, where `H` is the
hex text of the bytes of `g` in order, two characters per byte; `H` has 32
characters, each one of `0-9` or `a-f`. -/
theorem Guid_MarshalJSON_spec (g : Guid) (h : g.Guid.length = 16) :
    g.MarshalJSON =
      (ascii "\x7b\x22guid\x22: \x22" ++ hexText g.Guid ++ ascii "\x22\x7d", none) ∧
    (hexText g.Guid).length = 32 ∧
    (∀ c ∈ hexText g.Guid, (0x30 ≤ c.val ∧ c.val ≤ 0x39) ∨ (0x61 ≤ c.val ∧ c.val ≤ 0x66)) := by
  obtain ⟨h1, h2, h3⟩ := EncodeToString_eq_hexText g.Guid
  refine ⟨?_, by rw [h2, h], h3⟩
  simp only [Guid.MarshalJSON, h1]
  have e1 : ascii "\x7b" ++ (ascii "\x22guid\x22: \x22" ++ hexText g.Guid ++ ascii "\x22")
      ++ ascii "\x7d"
      = (ascii "\x7b" ++ ascii "\x22guid\x22: \x22") ++ hexText g.Guid
        ++ (ascii "\x22" ++ ascii "\x7d") := by
    simp only [List.append_assoc]
  rw [e1]
  rfl

set_option maxRecDepth 100000 in
/-- Witness for C15 at the bytes `00 01 .. 0e ff`. -/
theorem Guid_MarshalJSON_spec_witness :
    Guid.MarshalJSON { Guid := [0, 1, 2, 3, 4, 5, 6, 7, 8, 9, 10, 11, 12, 13, 14, 255] } =
      (ascii "\x7b\x22guid\x22: \x22" ++
        hexText [0, 1, 2, 3, 4, 5, 6, 7, 8, 9, 10, 11, 12, 13, 14, 255] ++
        ascii "\x22\x7d", none) ∧
    hexText [0, 1, 2, 3, 4, 5, 6, 7, 8, 9, 10, 11, 12, 13, 14, 255] =
      ascii "000102030405060708090a0b0c0d0eff" :=
  ⟨(Guid_MarshalJSON_spec
      { Guid := [0, 1, 2, 3, 4, 5, 6, 7, 8, 9, 10, 11, 12, 13, 14, 255] } (by decide)).1,
   by decide⟩

/-- C17: no normalization of decimal text. For every `s` on which
`DecimalFromString` succeeds, `StringFromDecimal` of the returned Decimal is
`s` itself, byte for byte. -/
theorem StringFromDecimal_DecimalFromString (s : GoString) (d : Decimal)
    (h : (DecimalFromString s).1 = some d) : d.StringFromDecimal = s := by
  unfold DecimalFromString at h
  by_cases hm : MatchString validDecimal s = true
  · simp only [hm, if_true, Option.some.injEq] at h
    rw [← h]
    rfl
  · simp [hm] at h

set_option maxRecDepth 100000 in
/-- Witness for C17 at the text `+-007.500`: the prefix, the leading zeros and
the trailing zeros of the fraction are kept. -/
theorem StringFromDecimal_DecimalFromString_witness :
    (DecimalFromString (ascii "+-007.500")).1 = some { Plaintext := ascii "+-007.500" } ∧
    Decimal.StringFromDecimal { Plaintext := ascii "+-007.500" } = ascii "+-007.500" :=
  ⟨by decide,
   StringFromDecimal_DecimalFromString (ascii "+-007.500")
     { Plaintext := ascii "+-007.500" } (by decide)⟩

/-! ## Case of GUID text; separators of timestamp text -/

set_option maxRecDepth 100000 in
theorem toLowerByte_hex (p : Byte) : isHexDigit p = true →
    isHexDigit (toLowerByte p) = true ∧
    hexDigitValue (toLowerByte p) = hexDigitValue p ∧
    hextable (hexDigitValue p) = toLowerByte p ∧ hexDigitValue p < 16 := by
  revert p; decide

set_option maxRecDepth 100000 in
theorem nibbles_of_pair (a b : Fin 16) :
    ((Fin.ofNat (16 * a.val + b.val) : Byte).val >>> 4) = a.val ∧
    ((Fin.ofNat (16 * a.val + b.val) : Byte).val &&& 0x0F) = b.val := by
  revert a b; decide

theorem lowercase_hex :
    ∀ (s : GoString), (∀ c ∈ s, isHexDigit c = true) →
      (∀ c ∈ lowercase s, isHexDigit c = true) ∧
      hexPairs (lowercase s) = hexPairs s ∧
      (s.length % 2 = 0 → EncodeToString (hexPairs s) = lowercase s)
  | [], _ => by simp [lowercase, hexPairs, EncodeToString]
  | [p], h => by
    have hp := toLowerByte_hex p (h p (by simp))
    refine ⟨?_, by simp [lowercase, hexPairs], by simp⟩
    intro c hc
    simp only [lowercase, List.map_cons, List.map_nil, List.mem_singleton] at hc
    rw [hc]
    exact hp.1
  | p :: q :: rest, h => by
    obtain ⟨hp1, hp2, hp3, hp4⟩ := toLowerByte_hex p (h p (by simp))
    obtain ⟨hq1, hq2, hq3, hq4⟩ := toLowerByte_hex q (h q (by simp))
    obtain ⟨i1, i2, i3⟩ := lowercase_hex rest (fun c hc => h c (by simp [hc]))
    have hl : lowercase (p :: q :: rest) = toLowerByte p :: toLowerByte q :: lowercase rest :=
      rfl
    rw [hl]
    refine ⟨?_, ?_, ?_⟩
    · intro c hc
      simp only [List.mem_cons] at hc
      rcases hc with rfl | rfl | hc
      · exact hp1
      · exact hq1
      · exact i1 c hc
    · simp only [hexPairs, hp2, hq2, i2]
    · intro hlen
      have hn := nibbles_of_pair ⟨hexDigitValue p, hp4⟩ ⟨hexDigitValue q, hq4⟩
      simp only at hn
      simp only [hexPairs, EncodeToString_cons, hn.1, hn.2, hp3, hq3]
      rw [i3 (by simp only [List.length_cons] at hlen; omega)]

theorem IsGuidText_lowercase (s : GoString) (h : IsGuidText s) : IsGuidText (lowercase s) :=
  ⟨by simp [lowercase, h.1], (lowercase_hex s h.2).1⟩

/-- C19: identifier hex text is case-insensitive. For every text `s` of 32
hexadecimal digits, `GuidFromString(s)` and `GuidFromString(lowercase(s))`
both succeed with the same 16 bytes, and the lowercase hex encoding of those
bytes, the one `Guid.MarshalJSON` emits between the quotes, is
`lowercase(s)`. -/
theorem GuidFromString_lowercase (s : GoString) (h : IsGuidText s) :
    GuidFromString s = (some { Guid := hexPairs s }, none) ∧
    GuidFromString (lowercase s) = (some { Guid := hexPairs s }, none) ∧
    (hexPairs s).length = 16 ∧
    EncodeToString (hexPairs s) = lowercase s ∧
    Guid.MarshalJSON { Guid := hexPairs s } =
      (ascii "\x7b" ++ (ascii "\x22guid\x22: \x22" ++ lowercase s ++ ascii "\x22")
        ++ ascii "\x7d", none) := by
  obtain ⟨_, h2, h3⟩ := lowercase_hex s h.2
  have he := h3 (by rw [h.1])
  refine ⟨GuidFromString_of_valid s h, ?_, by rw [hexPairs_length, h.1], he, ?_⟩
  · rw [GuidFromString_of_valid _ (IsGuidText_lowercase s h), h2]
  · simp only [Guid.MarshalJSON, he]

set_option maxRecDepth 100000 in
/-- Witness for C19 at the text `00112233445566778899AaBbCcDdEeFf`. -/
theorem GuidFromString_lowercase_witness :
    lowercase (ascii "00112233445566778899AaBbCcDdEeFf") =
      ascii "00112233445566778899aabbccddeeff" ∧
    GuidFromString (ascii "00112233445566778899AaBbCcDdEeFf") =
      (some { Guid := hexPairs (ascii "00112233445566778899AaBbCcDdEeFf") }, none) ∧
    GuidFromString (lowercase (ascii "00112233445566778899AaBbCcDdEeFf")) =
      (some { Guid := hexPairs (ascii "00112233445566778899AaBbCcDdEeFf") }, none) :=
  ⟨by decide,
   (GuidFromString_lowercase (ascii "00112233445566778899AaBbCcDdEeFf") (by decide)).1,
   (GuidFromString_lowercase (ascii "00112233445566778899AaBbCcDdEeFf") (by decide)).2.1⟩

theorem slice_eq_of_agree (s1 s2 : GoString) (a b : Nat)
    (h : ∀ i, a ≤ i → i < b → s1[i]? = s2[i]?) : slice s1 a b = slice s2 a b := by
  apply List.ext_getElem?
  intro k
  simp only [slice, List.getElem?_take, List.getElem?_drop]
  by_cases hk : k < b - a
  · simp only [hk, if_true]
    exact h (a + k) (by omega) (by omega)
  · simp only [hk, if_false]

/-- C20: `DateTimeFromString` never inspects the separator positions. For any
two texts `s1` and `s2` of the same length, 10 or 19, that agree on every byte
inside the fields `[0,4)`, `[5,7)`, `[8,10)` and, for length 19, `[11,13)`,
`[14,16)`, `[17,19)`, the results are equal in every time zone: both nil, or
both non-nil with equal `Milliseconds`. -/
theorem DateTimeFromString_separators (Local : Location) (s1 s2 : GoString)
    (hlen : s1.length = s2.length) (h : s1.length = 10 ∨ s1.length = 19)
    (hag : ∀ i, inField s1.length i = true → s1[i]? = s2[i]?) :
    DateTimeFromString Local s1 = DateTimeFromString Local s2 := by
  have f1 : slice s1 0 4 = slice s2 0 4 :=
    slice_eq_of_agree s1 s2 0 4 (fun i h0 h1 => hag i (by simp [inField]; omega))
  have f2 : slice s1 5 7 = slice s2 5 7 :=
    slice_eq_of_agree s1 s2 5 7 (fun i h0 h1 => hag i (by simp [inField]; omega))
  have f3 : slice s1 8 10 = slice s2 8 10 :=
    slice_eq_of_agree s1 s2 8 10 (fun i h0 h1 => hag i (by simp [inField]; omega))
  rcases h with h | h
  · have h2 : s2.length = 10 := by omega
    simp [DateTimeFromString, h, h2, f1, f2, f3]
  · have h2 : s2.length = 19 := by omega
    have f4 : slice s1 11 13 = slice s2 11 13 :=
      slice_eq_of_agree s1 s2 11 13 (fun i h0 h1 => hag i (by simp [inField, h]; omega))
    have f5 : slice s1 14 16 = slice s2 14 16 :=
      slice_eq_of_agree s1 s2 14 16 (fun i h0 h1 => hag i (by simp [inField, h]; omega))
    have f6 : slice s1 17 19 = slice s2 17 19 :=
      slice_eq_of_agree s1 s2 17 19 (fun i h0 h1 => hag i (by simp [inField, h]; omega))
    simp only [DateTimeFromString, h, h2, f1, f2, f3, f4, f5, f6]

theorem agree_of_all (s1 s2 : GoString) (hlen : s1.length = s2.length)
    (h : (List.range s1.length).all (fun i => s1[i]? == s2[i]? || !inField s1.length i) = true) :
    ∀ i, inField s1.length i = true → s1[i]? = s2[i]? := by
  intro i hi
  by_cases hl : i < s1.length
  · have := List.all_eq_true.1 h i (List.mem_range.2 hl)
    simpa [hi] using this
  · rw [List.getElem?_eq_none (by omega), List.getElem?_eq_none (by omega)]

set_option maxRecDepth 100000 in
/-- Witness for C20: `2024x03y15` reads as `2024-03-15`, and
`2024-03-15T08:30:00` as `2024-03-15 08:30:00`. -/
theorem DateTimeFromString_separators_witness :
    DateTimeFromString UTC (ascii "2024x03y15") = DateTimeFromString UTC (ascii "2024-03-15") ∧
    DateTimeFromString UTC (ascii "2024-03-15T08:30:00") =
      DateTimeFromString UTC (ascii "2024-03-15 08:30:00") ∧
    DateTimeFromString UTC (ascii "2024-03-15 08:30:00") =
      some { Milliseconds := 1710491400000 } :=
  ⟨DateTimeFromString_separators UTC (ascii "2024x03y15") (ascii "2024-03-15") (by decide)
      (by decide) (agree_of_all _ _ (by decide) (by decide)),
   DateTimeFromString_separators UTC (ascii "2024-03-15T08:30:00")
      (ascii "2024-03-15 08:30:00") (by decide) (by decide)
      (agree_of_all _ _ (by decide) (by decide)),
   by decide⟩

/-! ## Second resolution of timestamps -/

theorem atoiLoop_value :
    ∀ (body : GoString) (acc v : Int), atoiLoop body acc = some v →
      ∃ x : Nat, x < 10 ^ body.length ∧ v = acc * 10 ^ body.length + x
  | [], acc, v, h => by
    simp only [atoiLoop, Option.some.injEq] at h
    exact ⟨0, by simp, by simp [h]⟩
  | ch :: t, acc, v, h => by
    simp only [atoiLoop] at h
    by_cases hd : (ch.val + 256 - 0x30) % 256 > 9
    · rw [if_pos hd] at h
      cases h
    · rw [if_neg hd] at h
      obtain ⟨x, hx, hv⟩ := atoiLoop_value t _ v h
      refine ⟨(ch.val + 256 - 0x30) % 256 * 10 ^ t.length + x, ?_, ?_⟩
      · have h9 : (ch.val + 256 - 0x30) % 256 ≤ 9 := by omega
        have := Nat.mul_le_mul_right (10 ^ t.length) h9
        simp only [List.length_cons, pow_succ]
        omega
      · rw [hv]
        simp only [List.length_cons, pow_succ]
        push_cast
        ring

theorem atoiOrNil_bound (f : GoString) (n : Int) (hl : f.length ≤ 4)
    (h : atoiOrNil f = some n) : -9999 ≤ n ∧ n ≤ 9999 := by
  have key : ∀ (body : GoString) (v : Int), body.length ≤ 4 → atoiLoop body 0 = some v →
      0 ≤ v ∧ v ≤ 9999 := by
    intro body v hb hv
    obtain ⟨x, hx, hxv⟩ := atoiLoop_value body 0 v hv
    have hp : 10 ^ body.length ≤ 10 ^ 4 := Nat.pow_le_pow_right (by decide) hb
    have hp4 : (10 : Nat) ^ 4 = 10000 := by norm_num
    simp only [zero_mul, zero_add] at hxv
    omega
  unfold atoiOrNil at h
  cases f with
  | nil => simp [Atoi, ParseInt10] at h
  | cons s0 t =>
    have hlt : (s0 :: t).length < 19 := by omega
    simp only [Atoi, hlt, if_true] at h
    by_cases hs : s0.val = 0x2D ∨ s0.val = 0x2B
    · simp only [hs, if_true] at h
      by_cases ht : t.length < 1
      · simp [ht] at h
      · simp only [ht, if_false] at h
        cases hq : atoiLoop t 0 with
        | none => simp [hq] at h
        | some v =>
          have hb := key t v (by simp only [List.length_cons] at hl; omega) hq
          simp only [hq, Option.some.injEq] at h
          by_cases hm : s0.val = 0x2D
          · simp only [hm, if_true] at h
            omega
          · simp only [hm, if_false] at h
            omega
    · simp only [hs, if_false] at h
      have hne : ¬ (s0 :: t).length < 1 := by simp
      simp only [hne, if_false] at h
      cases hq : atoiLoop (s0 :: t) 0 with
      | none => simp [hq] at h
      | some v =>
        have hb := key (s0 :: t) v hl hq
        simp only [hq, Option.some.injEq] at h
        have hm : ¬ s0.val = 0x2D := fun hc => hs (Or.inl hc)
        simp only [hm, if_false] at h
        omega

theorem norm_eq (hi lo base : Int) (hb : base = 12 ∨ base = 24 ∨ base = 60) :
    norm hi lo base = (hi + lo / base, lo % base) := by
  unfold norm
  rcases hb with rfl | rfl | rfl
  · by_cases h : lo < 0
    · have e : Int.tdiv (-lo - 1) 12 = (-lo - 1) / 12 := Int.tdiv_eq_ediv (by omega) (by omega)
      simp only [h, if_true, e]
      rw [if_neg (by omega)]
      ext <;> (simp only; omega)
    · simp only [h, if_false]
      by_cases h2 : lo ≥ 12
      · have e : Int.tdiv lo 12 = lo / 12 := Int.tdiv_eq_ediv (by omega) (by omega)
        simp only [h2, if_true, e]
        ext
        · rfl
        · simp only
          omega
      · simp only [h2, if_false]
        ext <;> (simp only; omega)
  · by_cases h : lo < 0
    · have e : Int.tdiv (-lo - 1) 24 = (-lo - 1) / 24 := Int.tdiv_eq_ediv (by omega) (by omega)
      simp only [h, if_true, e]
      rw [if_neg (by omega)]
      ext <;> (simp only; omega)
    · simp only [h, if_false]
      by_cases h2 : lo ≥ 24
      · have e : Int.tdiv lo 24 = lo / 24 := Int.tdiv_eq_ediv (by omega) (by omega)
        simp only [h2, if_true, e]
        ext
        · rfl
        · simp only
          omega
      · simp only [h2, if_false]
        ext <;> (simp only; omega)
  · by_cases h : lo < 0
    · have e : Int.tdiv (-lo - 1) 60 = (-lo - 1) / 60 := Int.tdiv_eq_ediv (by omega) (by omega)
      simp only [h, if_true, e]
      rw [if_neg (by omega)]
      ext <;> (simp only; omega)
    · simp only [h, if_false]
      by_cases h2 : lo ≥ 60
      · have e : Int.tdiv lo 60 = lo / 60 := Int.tdiv_eq_ediv (by omega) (by omega)
        simp only [h2, if_true, e]
        ext
        · rfl
        · simp only
          omega
      · simp only [h2, if_false]
        ext <;> (simp only; omega)

theorem wrapU64_add_wrapU64 (a b : Int) : wrapU64 (a + wrapU64 b) = wrapU64 (a + b) := by
  unfold wrapU64
  omega

theorem daysSinceEpoch_eq (year : Int) (hlo : -20000 ≤ year) (hhi : year ≤ 20000) :
    daysSinceEpoch year =
      365 * (year + 292277022399) + (year + 292277022399) / 4
        - (year + 292277022399) / 100 + (year + 292277022399) / 400 := by
  have e0 : wrapU64 (year - absoluteZeroYear) = year + 292277022399 := by
    rw [wrapU64_eq _ (by unfold absoluteZeroYear; omega) (by unfold absoluteZeroYear; omega)]
    unfold absoluteZeroYear
    omega
  have e1 : wrapU64 (year + 292277022399 - 400 * ((year + 292277022399) / 400))
      = (year + 292277022399) % 400 := by
    rw [wrapU64_eq _ (by omega) (by omega)]
    omega
  have e2 : wrapU64 (146097 * ((year + 292277022399) / 400))
      = 146097 * ((year + 292277022399) / 400) := wrapU64_eq _ (by omega) (by omega)
  have e3 : wrapU64 ((year + 292277022399) % 400
        - 100 * (((year + 292277022399) % 400) / 100))
      = (year + 292277022399) % 400 % 100 := by
    rw [wrapU64_eq _ (by omega) (by omega)]
    omega
  have e4 : wrapU64 (36524 * (((year + 292277022399) % 400) / 100))
      = 36524 * (((year + 292277022399) % 400) / 100) := wrapU64_eq _ (by omega) (by omega)
  have e5 : wrapU64 (146097 * ((year + 292277022399) / 400)
        + 36524 * (((year + 292277022399) % 400) / 100))
      = 146097 * ((year + 292277022399) / 400)
        + 36524 * (((year + 292277022399) % 400) / 100) :=
    wrapU64_eq _ (by omega) (by omega)
  have e6 : wrapU64 ((year + 292277022399) % 400 % 100
        - 4 * (((year + 292277022399) % 400 % 100) / 4))
      = (year + 292277022399) % 400 % 100 % 4 := by
    rw [wrapU64_eq _ (by omega) (by omega)]
    omega
  have e7 : wrapU64 (1461 * (((year + 292277022399) % 400 % 100) / 4))
      = 1461 * (((year + 292277022399) % 400 % 100) / 4) :=
    wrapU64_eq _ (by omega) (by omega)
  have e8 : wrapU64 (146097 * ((year + 292277022399) / 400)
        + 36524 * (((year + 292277022399) % 400) / 100)
        + 1461 * (((year + 292277022399) % 400 % 100) / 4))
      = 146097 * ((year + 292277022399) / 400)
        + 36524 * (((year + 292277022399) % 400) / 100)
        + 1461 * (((year + 292277022399) % 400 % 100) / 4) :=
    wrapU64_eq _ (by omega) (by omega)
  have e9 : wrapU64 (365 * ((year + 292277022399) % 400 % 100 % 4))
      = 365 * ((year + 292277022399) % 400 % 100 % 4) :=
    wrapU64_eq _ (by omega) (by omega)
  have e10 : wrapU64 (146097 * ((year + 292277022399) / 400)
        + 36524 * (((year + 292277022399) % 400) / 100)
        + 1461 * (((year + 292277022399) % 400 % 100) / 4)
        + 365 * ((year + 292277022399) % 400 % 100 % 4))
      = 146097 * ((year + 292277022399) / 400)
        + 36524 * (((year + 292277022399) % 400) / 100)
        + 1461 * (((year + 292277022399) % 400 % 100) / 4)
        + 365 * ((year + 292277022399) % 400 % 100 % 4) :=
    wrapU64_eq _ (by omega) (by omega)
  simp only [daysSinceEpoch, e0, e1, e2, e3, e4, e5, e6, e7, e8, e9, e10]
  omega

theorem daysBefore_bound (i : Int) (h0 : 0 ≤ i) (h1 : i < 12) :
    0 ≤ daysBefore i ∧ daysBefore i ≤ 334 := by
  obtain ⟨n, rfl⟩ := Int.eq_ofNat_of_zero_le h0
  have hn : n < 12 := by omega
  interval_cases n <;> simp [daysBefore]

theorem absSeconds_bound (year month day hour min sec : Int)
    (hy : -20000 ≤ year ∧ year ≤ 20000) (hm : 1 ≤ month ∧ month ≤ 12)
    (hd : -20000 ≤ day ∧ day ≤ 20000) (hh : 0 ≤ hour ∧ hour < 24)
    (hmi : 0 ≤ min ∧ min < 60) (hs : 0 ≤ sec ∧ sec < 60) :
    -1000000000000 ≤ wrapI64 (wrapI64 (absSeconds year month day hour min sec)
        + (absoluteToInternal + internalToUnix)) ∧
    wrapI64 (wrapI64 (absSeconds year month day hour min sec)
        + (absoluteToInternal + internalToUnix)) ≤ 1000000000000 := by
  have hD := daysSinceEpoch_eq year hy.1 hy.2
  obtain ⟨hdb0, hdb1⟩ := daysBefore_bound (month - 1) (by omega) (by omega)
  rw [wrapI64_add_wrapI64]
  simp only [absSeconds, absoluteToInternal, internalToUnix]
  generalize daysBefore (month - 1) = DB at hdb0 hdb1 ⊢
  generalize daysSinceEpoch year = D at hD ⊢
  rw [wrapU64_eq DB hdb0 (by omega)]
  rw [wrapU64_eq (D + DB) (by omega) (by omega)]
  rw [wrapU64_eq (hour * 3600 + min * 60 + sec) (by omega) (by omega)]
  rw [wrapU64_add_wrapU64]
  by_cases hcnd : isLeap year = true ∧ month ≥ 3
  · rw [if_pos hcnd]
    rw [wrapU64_eq (D + DB + 1) (by omega) (by omega)]
    rw [wrapU64_eq (_ + (day - 1)) (by omega) (by omega)]
    rw [wrapU64_eq (_ * 86400) (by omega) (by omega)]
    rw [wrapU64_eq _ (by omega) (by omega)]
    rw [wrapI64_eq _ (by omega) (by omega)]
    omega
  · rw [if_neg hcnd]
    rw [wrapU64_eq (_ + (day - 1)) (by omega) (by omega)]
    rw [wrapU64_eq (_ * 86400) (by omega) (by omega)]
    rw [wrapU64_eq _ (by omega) (by omega)]
    rw [wrapI64_eq _ (by omega) (by omega)]
    omega

theorem Date_Unix_bound (Local : Location)
    (hz : ∀ u, -2147483648 ≤ (Local.lookup u).1 ∧ (Local.lookup u).1 ≤ 2147483647)
    (year month day hour min sec : Int)
    (hy : -9999 ≤ year ∧ year ≤ 9999) (hm : -9999 ≤ month ∧ month ≤ 9999)
    (hd : -9999 ≤ day ∧ day ≤ 9999) (hh : -9999 ≤ hour ∧ hour ≤ 9999)
    (hmi : -9999 ≤ min ∧ min ≤ 9999) (hs : -9999 ≤ sec ∧ sec ≤ 9999) :
    -1000002147483648 ≤ (Date year month day hour min sec 0 Local).Unix ∧
    (Date year month day hour min sec 0 Local).Unix ≤ 1000002147483648 := by
  have n1 := norm_eq year (month - 1) 12 (Or.inl rfl)
  have n2 : norm sec 0 1000000000 = (sec, 0) := norm_in_range _ _ _ (by omega) (by omega)
  have n3 := norm_eq min sec 60 (Or.inr (Or.inr rfl))
  have n4 := norm_eq hour (min + sec / 60) 60 (Or.inr (Or.inr rfl))
  have n5 := norm_eq day (hour + (min + sec / 60) / 60) 24 (Or.inr (Or.inl rfl))
  have hb := absSeconds_bound (year + (month - 1) / 12) ((month - 1) % 12 + 1)
    (day + (hour + (min + sec / 60) / 60) / 24) ((hour + (min + sec / 60) / 60) % 24)
    ((min + sec / 60) % 60) (sec % 60) (by omega) (by omega) (by omega) (by omega)
    (by omega) (by omega)
  simp only [Date, Time.Unix, n1, n2, n3, n4, n5]
  generalize wrapI64 (wrapI64 (absSeconds (year + (month - 1) / 12) ((month - 1) % 12 + 1)
    (day + (hour + (min + sec / 60) / 60) / 24) ((hour + (min + sec / 60) / 60) % 24)
    ((min + sec / 60) % 60) (sec % 60)) + (absoluteToInternal + internalToUnix)) = U at hb ⊢
  have h1 := hz U
  have h2 := hz (wrapI64 ((Local.lookup U).2.1 - 1))
  have h3 := hz (Local.lookup U).2.2
  split_ifs
  · rw [wrapI64_eq _ (by omega) (by omega)]
    omega
  · rw [wrapI64_eq _ (by omega) (by omega)]
    omega
  · rw [wrapI64_eq _ (by omega) (by omega)]
    omega
  · omega

/-- C11 (counterexample): for the native time value with Unix seconds
9223372036854776 the `int64` product `t.Unix() * 1000` wraps, and
`DateTimeFromTime` returns `Milliseconds = -9223372036854775616`, which is
not a multiple of 1000. -/
theorem DateTimeFromTime_not_multiple :
    Time.IsNative { sec := 9223372036854776, nsec := 0 } ∧
    (DateTimeFromTime { sec := 9223372036854776, nsec := 0 }).Milliseconds % 1000 = 384 ∧
    ¬ ((1000 : Int) ∣ (DateTimeFromTime { sec := 9223372036854776, nsec := 0 }).Milliseconds) := by
  unfold Time.IsNative
  decide

/-- C11 (amended): second-resolution invariant. Every non-nil result of
`DateTimeFromString(s)`, for every text `s`, has `Milliseconds` a multiple of
1000 (the offsets of the local zone being within `int32`, as zone data stores
them); and `DateTimeFromTime(t)` has `Milliseconds` a multiple of 1000, equal
to `t.Unix() * 1000`, for every native time value `t` whose Unix seconds lie
within ±9223372036854775, where the `int64` product does not overflow. -/
theorem Milliseconds_multiple_of_1000 :
    (∀ (Local : Location) (s : GoString) (m : DateTime),
      (∀ u, -2147483648 ≤ (Local.lookup u).1 ∧ (Local.lookup u).1 ≤ 2147483647) →
      DateTimeFromString Local s = some m → (1000 : Int) ∣ m.Milliseconds) ∧
    (∀ t : Time, -9223372036854775 ≤ t.Unix → t.Unix ≤ 9223372036854775 →
      (DateTimeFromTime t).Milliseconds = t.Unix * 1000 ∧
      (1000 : Int) ∣ (DateTimeFromTime t).Milliseconds) := by
  constructor
  · intro Local s m hz h
    have fin : ∀ (year month day hour min sec : Int),
        (-9999 ≤ year ∧ year ≤ 9999) → (-9999 ≤ month ∧ month ≤ 9999) →
        (-9999 ≤ day ∧ day ≤ 9999) → (-9999 ≤ hour ∧ hour ≤ 9999) →
        (-9999 ≤ min ∧ min ≤ 9999) → (-9999 ≤ sec ∧ sec ≤ 9999) →
        (1000 : Int) ∣ wrapI64 ((Date year month day hour min sec 0 Local).Unix * 1000) := by
      intro year month day hour min sec hy hm hd hh hmi hs
      have hb := Date_Unix_bound Local hz year month day hour min sec hy hm hd hh hmi hs
      rw [wrapI64_eq _ (by omega) (by omega)]
      exact Dvd.intro_left _ rfl
    unfold DateTimeFromString at h
    by_cases hl : s.length = 10 ∨ s.length = 19
    · rw [if_pos hl] at h
      have hlen : s.length ≤ 19 := by omega
      cases h1 : atoiOrNil (slice s 0 4) with
      | none => simp [h1] at h
      | some year =>
      cases h2 : atoiOrNil (slice s 5 7) with
      | none => simp [h1, h2] at h
      | some month =>
      cases h3 : atoiOrNil (slice s 8 10) with
      | none => simp [h1, h2, h3] at h
      | some day =>
      have by1 := atoiOrNil_bound _ year (by simp [slice]) h1
      have by2 := atoiOrNil_bound _ month (by simp [slice]) h2
      have by3 := atoiOrNil_bound _ day (by simp [slice]) h3
      by_cases h19 : s.length = 19
      · cases h4 : atoiOrNil (slice s 11 13) with
        | none => simp [h1, h2, h3, h4, h19] at h
        | some hour =>
        cases h5 : atoiOrNil (slice s 14 16) with
        | none => simp [h1, h2, h3, h4, h5, h19] at h
        | some min =>
        cases h6 : atoiOrNil (slice s 17 19) with
        | none => simp [h1, h2, h3, h4, h5, h6, h19] at h
        | some sec =>
        have by4 := atoiOrNil_bound _ hour (by simp [slice]) h4
        have by5 := atoiOrNil_bound _ min (by simp [slice]) h5
        have by6 := atoiOrNil_bound _ sec (by simp [slice]) h6
        simp [h1, h2, h3, h4, h5, h6, h19] at h
        rw [← h]
        exact fin year month day hour min sec by1 by2 by3 by4 by5 by6
      · simp [h1, h2, h3, h19] at h
        rw [← h]
        exact fin year month day 12 0 0 by1 by2 by3 (by omega) (by omega) (by omega)
    · rw [if_neg hl] at h
      simp only [Option.some.injEq] at h
      rw [← h]
      exact dvd_zero _
  · intro t hlo hhi
    have hw : wrapI64 (t.Unix * 1000) = t.Unix * 1000 := wrapI64_eq _ (by omega) (by omega)
    rw [show (DateTimeFromTime t).Milliseconds = t.Unix * 1000 from hw]
    exact ⟨rfl, Dvd.intro_left _ rfl⟩

set_option maxRecDepth 100000 in
/-- Witness for C11 at the text `2024-03-15 08:30:00` in UTC and at the
instant 1710491400 s. -/
theorem Milliseconds_multiple_of_1000_witness :
    DateTimeFromString UTC (ascii "2024-03-15 08:30:00") = some { Milliseconds := 1710491400000 } ∧
    (1000 : Int) ∣ (1710491400000 : Int) ∧
    (1000 : Int) ∣ (DateTimeFromTime { sec := 1710491400, nsec := 0 }).Milliseconds :=
  ⟨by decide,
   Milliseconds_multiple_of_1000.1 UTC (ascii "2024-03-15 08:30:00")
     { Milliseconds := 1710491400000 }
     (fun _ => (by decide : (-2147483648 : Int) ≤ 0 ∧ (0 : Int) ≤ 2147483647)) (by decide),
   (Milliseconds_multiple_of_1000.2 { sec := 1710491400, nsec := 0 }
     (by decide) (by decide)).2⟩

/-! ## Decimal digits of integers -/

theorem digitsValue_foldl (b : GoString) :
    ∀ acc : Nat, b.foldl (fun acc c => acc * 10 + (c.val - 0x30)) acc
      = acc * 10 ^ b.length + digitsValue b := by
  induction b with
  | nil => intro acc; simp [digitsValue]
  | cons c t ih =>
    intro acc
    simp only [List.foldl_cons, digitsValue, List.length_cons]
    rw [ih (acc * 10 + (c.val - 0x30)), ih (0 * 10 + (c.val - 0x30))]
    simp only [digitsValue]
    ring

theorem digitsValue_append (a b : GoString) :
    digitsValue (a ++ b) = digitsValue a * 10 ^ b.length + digitsValue b := by
  unfold digitsValue
  rw [List.foldl_append, digitsValue_foldl]
  rfl

theorem digitChar_of_lt (n : Nat) (h : n < 10) :
    (Fin.ofNat (0x30 + n) : Byte).val = 48 + n := by
  show (0x30 + n) % 256 = 48 + n
  omega

theorem utoaAux_spec :
    ∀ (fuel n : Nat) (acc : GoString), 0 < fuel → n < 10 ^ fuel →
      ∃ ds : GoString, utoaAux fuel n acc = ds ++ acc ∧ ds.all isAsciiDigit = true ∧
        ds ≠ [] ∧ digitsValue ds = n ∧ (n ≠ 0 → ds.head? ≠ some (0x30 : Byte))
  | 0, _, _, h, _ => absurd h (by decide)
  | fuel + 1, n, acc, _, hn => by
    by_cases h10 : n < 10
    · have hv := digitChar_of_lt n h10
      refine ⟨[Fin.ofNat (0x30 + n)], by simp [utoaAux, h10], ?_, by simp, ?_, ?_⟩
      · simp only [List.all_cons, List.all_nil, Bool.and_true, isAsciiDigit_iff, hv]
        omega
      · simp only [digitsValue, List.foldl_cons, List.foldl_nil, hv]
        omega
      · intro hne hc
        simp only [List.head?_cons, Option.some.injEq] at hc
        have := congrArg Fin.val hc
        rw [hv] at this
        simp at this
        omega
    · have hf : 0 < fuel := by
        rcases Nat.eq_zero_or_pos fuel with h0 | h0
        · subst h0
          simp at hn
          omega
        · exact h0
      have hq : n / 10 < 10 ^ fuel := by
        rw [pow_succ] at hn
        omega
      obtain ⟨ds, h1, h2, h3, h4, h5⟩ :=
        utoaAux_spec fuel (n / 10) (Fin.ofNat (0x30 + n % 10) :: acc) hf hq
      have hv := digitChar_of_lt (n % 10) (by omega)
      refine ⟨ds ++ [Fin.ofNat (0x30 + n % 10)], ?_, ?_, by simp, ?_, ?_⟩
      · simp only [utoaAux, h10, if_false, h1, List.append_assoc, List.singleton_append]
      · simp only [List.all_append, h2, List.all_cons, List.all_nil, Bool.and_true,
          Bool.true_and, isAsciiDigit_iff, hv]
        omega
      · rw [digitsValue_append, h4]
        simp only [digitsValue, List.foldl_cons, List.foldl_nil, hv, List.length_singleton]
        omega
      · intro _
        have hq0 : n / 10 ≠ 0 := by omega
        have := h5 hq0
        cases ds with
        | nil => exact absurd rfl h3
        | cons d0 dt => simpa using this

theorem utoa_spec (n : Nat) :
    (utoa n).all isAsciiDigit = true ∧ utoa n ≠ [] ∧ digitsValue (utoa n) = n ∧
      (n ≠ 0 → (utoa n).head? ≠ some (0x30 : Byte)) := by
  have hn : n < 10 ^ (n + 1) :=
    lt_trans (Nat.lt_pow_self (by decide : 1 < 10) n) (Nat.pow_lt_pow_right (by decide) (by omega))
  obtain ⟨ds, h1, h2, h3, h4, h5⟩ := utoaAux_spec (n + 1) n [] (by omega) hn
  rw [List.append_nil] at h1
  unfold utoa
  rw [h1]
  exact ⟨h2, h3, h4, h5⟩

/-! ## Native decimals: text and back -/

theorem trimRightZeros_decomp :
    ∀ s : GoString, ∃ j, s = trimRightZeros s ++ List.replicate j (0x30 : Byte)
  | [] => ⟨0, rfl⟩
  | c :: t => by
    obtain ⟨j, hj⟩ := trimRightZeros_decomp t
    by_cases h : (trimRightZeros t).isEmpty = true ∧ c.val = 0x30
    · refine ⟨j + 1, ?_⟩
      have hc : c = (0x30 : Byte) := Fin.ext h.2
      have ht : trimRightZeros t = [] := List.isEmpty_iff.1 h.1
      rw [ht, List.nil_append] at hj
      simp only [trimRightZeros, h, and_self, if_true, List.nil_append, List.replicate_succ]
      rw [hc, ← hj]
    · refine ⟨j, ?_⟩
      simp only [trimRightZeros, h, if_false, List.cons_append]
      rw [← hj]

theorem trimRightZeros_idem : ∀ s : GoString, trimRightZeros (trimRightZeros s) = trimRightZeros s
  | [] => rfl
  | c :: t => by
    have ih := trimRightZeros_idem t
    by_cases h : (trimRightZeros t).isEmpty = true ∧ c.val = 0x30
    · simp only [trimRightZeros, h, and_self, if_true]
    · simp only [trimRightZeros, h, if_false, ih]

theorem splitDot_noDot : ∀ a : GoString, (∀ b ∈ a, b.val ≠ 0x2E) → splitDot a = [a]
  | [], _ => rfl
  | c :: t, h => by
    have hc : ¬ c.val = 0x2E := h c (by simp)
    have ih := splitDot_noDot t (fun b hb => h b (by simp [hb]))
    simp only [splitDot, hc, if_false, ih]

theorem splitDot_oneDot :
    ∀ a b : GoString, (∀ x ∈ a, x.val ≠ 0x2E) → (∀ x ∈ b, x.val ≠ 0x2E) →
      splitDot (a ++ (0x2E : Byte) :: b) = [a, b]
  | [], b, _, hb => by
    have e : ((0x2E : Byte)).val = 0x2E := rfl
    simp only [List.nil_append, splitDot, e, if_true, splitDot_noDot b hb]
  | c :: t, b, ha, hb => by
    have hc : ¬ c.val = 0x2E := ha c (by simp)
    have ih := splitDot_oneDot t b (fun x hx => ha x (by simp [hx])) hb
    have key : splitDot (c :: (t ++ (0x2E : Byte) :: b)) = [c :: t, b] := by
      rw [splitDot, if_neg hc, ih]
    exact key

theorem indexAnyE_none : ∀ w : GoString, (∀ b ∈ w, b.val ≠ 0x45 ∧ b.val ≠ 0x65) →
    indexAnyE w = none
  | [], _ => rfl
  | c :: t, h => by
    have hc : ¬ (c.val = 0x45 ∨ c.val = 0x65) := by
      have := h c (by simp)
      tauto
    simp only [indexAnyE, hc, if_false, indexAnyE_none t (fun b hb => h b (by simp [hb]))]
    rfl

theorem all_digit_mem (s : GoString) (h : s.all isAsciiDigit = true) :
    ∀ b ∈ s, 0x30 ≤ b.val ∧ b.val ≤ 0x39 := by
  intro b hb
  exact (isAsciiDigit_iff b).1 (List.all_eq_true.1 h b hb)

theorem bigIntSetString_digits (neg : Bool) (body : GoString) (hne : body ≠ [])
    (hd : body.all isAsciiDigit = true) :
    bigIntSetString ((if neg then [(0x2D : Byte)] else []) ++ body)
      = some (if neg then -(digitsValue body : Int) else (digitsValue body : Int)) := by
  have hem : body.isEmpty = false := by
    cases body with
    | nil => exact absurd rfl hne
    | cons _ _ => rfl
  cases neg with
  | true =>
    have e : ((0x2D : Byte)).val = 0x2D := rfl
    simp [bigIntSetString, e, hem, hd]
  | false =>
    cases body with
    | nil => exact absurd rfl hne
    | cons c t =>
      have hc := all_digit_mem _ hd c (by simp)
      have h1 : ¬ (c.val = 0x2B ∨ c.val = 0x2D) := by omega
      have h2 : ¬ c.val = 0x2D := by omega
      have h3 : ¬ c.val = 0x2B := by omega
      simp [bigIntSetString, h2, h3, hd]

theorem NewFromString_digits (neg : Bool) (ip fp : GoString)
    (hip : ip ≠ []) (hipd : ip.all isAsciiDigit = true) (hfpd : fp.all isAsciiDigit = true)
    (htrim : trimRightZeros fp = fp) (hlen : fp.length ≤ 2147483648) :
    NewFromString ((if neg then [(0x2D : Byte)] else []) ++
        (if fp.length > 0 then ip ++ [(0x2E : Byte)] ++ fp else ip))
      = ({ value := if neg then -(digitsValue (ip ++ fp) : Int) else (digitsValue (ip ++ fp) : Int),
           exp := -(fp.length : Int) }, none) := by
  have hipm := all_digit_mem ip hipd
  have hfpm := all_digit_mem fp hfpd
  have hsign : ∀ b ∈ (if neg then [(0x2D : Byte)] else []), b.val = 0x2D := by
    intro b hb
    cases neg with
    | true =>
      simp only [if_true, List.mem_singleton] at hb
      rw [hb]; rfl
    | false => simp at hb
  have hbody : (ip ++ fp).all isAsciiDigit = true := by simp [List.all_append, hipd, hfpd]
  have hbne : ip ++ fp ≠ [] := by simp [hip]
  have hset := bigIntSetString_digits neg (ip ++ fp) hbne hbody
  by_cases hf : fp.length > 0
  · rw [if_pos hf]
    have hE : indexAnyE ((if neg then [(0x2D : Byte)] else []) ++ (ip ++ [(0x2E : Byte)] ++ fp))
        = none := by
      apply indexAnyE_none
      intro b hb
      simp only [List.mem_append, List.mem_singleton] at hb
      rcases hb with hb | (hb | hb) | hb
      · have := hsign b hb; omega
      · have := hipm b hb; omega
      · rw [hb]; decide
      · have := hfpm b hb; omega
    have hS : splitDot ((if neg then [(0x2D : Byte)] else []) ++ (ip ++ [(0x2E : Byte)] ++ fp))
        = [(if neg then [(0x2D : Byte)] else []) ++ ip, fp] := by
      have e : (if neg then [(0x2D : Byte)] else []) ++ (ip ++ [(0x2E : Byte)] ++ fp)
          = ((if neg then [(0x2D : Byte)] else []) ++ ip) ++ (0x2E : Byte) :: fp := by simp
      rw [e]
      apply splitDot_oneDot
      · intro b hb
        rcases List.mem_append.1 hb with hb | hb
        · have := hsign b hb; omega
        · have := hipm b hb; omega
      · intro b hb
        have := hfpm b hb; omega
    have e2 : (if neg then [(0x2D : Byte)] else []) ++ ip ++ fp
        = (if neg then [(0x2D : Byte)] else []) ++ (ip ++ fp) := by simp
    have hr : ¬ (-(fp.length : Int) < -2147483648 ∨ -(fp.length : Int) > 2147483647) := by
      omega
    simp only [NewFromString, hE, hS, htrim, e2, hset, hr, if_false, zero_add]
  · rw [if_neg hf]
    have hfp : fp = [] := List.length_eq_zero.1 (by omega)
    subst hfp
    have hE : indexAnyE ((if neg then [(0x2D : Byte)] else []) ++ ip) = none := by
      apply indexAnyE_none
      intro b hb
      rcases List.mem_append.1 hb with hb | hb
      · have := hsign b hb; omega
      · have := hipm b hb; omega
    have hS : splitDot ((if neg then [(0x2D : Byte)] else []) ++ ip)
        = [(if neg then [(0x2D : Byte)] else []) ++ ip] := by
      apply splitDot_noDot
      intro b hb
      rcases List.mem_append.1 hb with hb | hb
      · have := hsign b hb; omega
      · have := hipm b hb; omega
    rw [List.append_nil] at hset
    have hr : ¬ ((0 : Int) < -2147483648 ∨ (0 : Int) > 2147483647) := by omega
    simp only [NewFromString, hE, hS, hset, hr, if_false, List.append_nil, List.length_nil,
      Nat.cast_zero, neg_zero]

theorem digitsValue_zeros : ∀ n : Nat, digitsValue (List.replicate n (0x30 : Byte)) = 0
  | 0 => rfl
  | n + 1 => by
    have e : List.replicate (n + 1) (0x30 : Byte) = [(0x30 : Byte)] ++ List.replicate n 0x30 := rfl
    rw [e, digitsValue_append, digitsValue_zeros n]
    have h0 : digitsValue [(0x30 : Byte)] = 0 := rfl
    rw [h0]
    simp

theorem digitsValue_append_zeros (a : GoString) (j : Nat) :
    digitsValue (a ++ List.replicate j (0x30 : Byte)) = digitsValue a * 10 ^ j := by
  rw [digitsValue_append, digitsValue_zeros, List.length_replicate, Nat.add_zero]

theorem all_digit_of_mem (s : GoString) (h : ∀ b ∈ s, 0x30 ≤ b.val ∧ b.val ≤ 0x39) :
    s.all isAsciiDigit = true :=
  List.all_eq_true.2 (fun b hb => (isAsciiDigit_iff b).2 (h b hb))

/-- The shape of `Decimal.String` for a negative exponent: sign, integer
digits, and a fraction without trailing zeros, from the digits of the
magnitude. -/
theorem String_neg_exp (d : NativeDecimal) (h : d.exp < 0) :
    ∃ (ip fp : GoString) (j : Nat),
      d.String = (if decide (d.value < 0) then [(0x2D : Byte)] else []) ++
          (if fp.length > 0 then ip ++ [(0x2E : Byte)] ++ fp else ip) ∧
      ip ≠ [] ∧ ip.all isAsciiDigit = true ∧ fp.all isAsciiDigit = true ∧
      trimRightZeros fp = fp ∧ fp.length + j = (-d.exp).toNat ∧
      digitsValue (ip ++ fp) * 10 ^ j = d.value.natAbs := by
  obtain ⟨hsd, hsne, hsv, _⟩ := utoa_spec d.value.natAbs
  have hsm := all_digit_mem _ hsd
  have hexp : ¬ d.exp ≥ 0 := by omega
  have key : ∀ (ip p2 : GoString), ip ≠ [] → (∀ b ∈ ip, 0x30 ≤ b.val ∧ b.val ≤ 0x39) →
      (∀ b ∈ p2, 0x30 ≤ b.val ∧ b.val ≤ 0x39) → p2.length = (-d.exp).toNat →
      digitsValue (ip ++ p2) = d.value.natAbs →
      ∃ (fp : GoString) (j : Nat), trimRightZeros p2 = fp ∧
        fp.all isAsciiDigit = true ∧
        trimRightZeros fp = fp ∧ fp.length + j = (-d.exp).toNat ∧
        digitsValue (ip ++ fp) * 10 ^ j = d.value.natAbs := by
    intro ip p2 _ _ hp2 hlen hval
    obtain ⟨j, hj⟩ := trimRightZeros_decomp p2
    refine ⟨trimRightZeros p2, j, rfl, ?_, trimRightZeros_idem p2, ?_, ?_⟩
    · apply all_digit_of_mem
      intro b hb
      exact hp2 b (by rw [hj]; exact List.mem_append_left _ hb)
    · rw [← hlen]
      conv_rhs => rw [hj]
      simp
    · rw [← digitsValue_append_zeros, List.append_assoc, ← hj, hval]
  have hsign : ∀ number : GoString,
      (if d.value < 0 then (0x2D : Byte) :: number else number)
        = (if decide (d.value < 0) then [(0x2D : Byte)] else []) ++ number := by
    intro number
    by_cases hv : d.value < 0 <;> simp [hv]
  by_cases hL : (utoa d.value.natAbs).length > (-d.exp).toNat
  · have hip : List.take ((utoa d.value.natAbs).length - (-d.exp).toNat) (utoa d.value.natAbs)
        ≠ [] := by
      intro hc
      have := congrArg List.length hc
      simp only [List.length_take, List.length_nil] at this
      omega
    obtain ⟨fp, j, hfp, h1, h2, h3, h4⟩ := key _
      (List.drop ((utoa d.value.natAbs).length - (-d.exp).toNat) (utoa d.value.natAbs)) hip
      (fun b hb => hsm b (List.mem_of_mem_take hb))
      (fun b hb => hsm b (List.mem_of_mem_drop hb))
      (by simp only [List.length_drop]; omega)
      (by rw [List.take_append_drop, hsv])
    refine ⟨_, fp, j, ?_, hip, all_digit_of_mem _ (fun b hb => hsm b (List.mem_of_mem_take hb)),
      h1, h2, h3, h4⟩
    simp only [NativeDecimal.String, hexp, if_false, hL, if_true, hfp, hsign]
  · have hval : digitsValue ([(0x30 : Byte)] ++
        (List.replicate ((-d.exp).toNat - (utoa d.value.natAbs).length) (0x30 : Byte)
          ++ utoa d.value.natAbs)) = d.value.natAbs := by
      rw [← List.append_assoc, digitsValue_append]
      have e : [(0x30 : Byte)] ++
          List.replicate ((-d.exp).toNat - (utoa d.value.natAbs).length) (0x30 : Byte)
          = List.replicate ((-d.exp).toNat - (utoa d.value.natAbs).length + 1) 0x30 := rfl
      rw [e, digitsValue_zeros, hsv]
      simp
    obtain ⟨fp, j, hfp, h1, h2, h3, h4⟩ := key [(0x30 : Byte)]
      (List.replicate ((-d.exp).toNat - (utoa d.value.natAbs).length) (0x30 : Byte)
        ++ utoa d.value.natAbs) (by simp)
      (fun b hb => by simp only [List.mem_singleton] at hb; rw [hb]; decide)
      (fun b hb => by
        rcases List.mem_append.1 hb with hb | hb
        · rw [(List.mem_replicate.1 hb).2]; decide
        · exact hsm b hb)
      (by simp only [List.length_append, List.length_replicate]; omega)
      hval
    refine ⟨_, fp, j, ?_, by simp, by decide, h1, h2, h3, h4⟩
    simp only [NativeDecimal.String, hexp, if_false, hL, hfp, hsign]

/-- C16: decimal passthrough. For every native decimal `d` (exponent within
`int32`), the Decimal `c = ConvertDecimal(d)` satisfies
`c.StringFromDecimal() == d.String()`, and `c.ConvertDecimal()` succeeds with
a nil error and a native decimal numerically equal to `d`. -/
theorem ConvertDecimal_passthrough (d : NativeDecimal)
    (hlo : -2147483648 ≤ d.exp) (hhi : d.exp ≤ 2147483647) :
    (ConvertDecimal d).StringFromDecimal = d.String ∧
    ∃ d2 : NativeDecimal, (ConvertDecimal d).ConvertDecimal = (d2, none) ∧
      NativeDecimal.NumEq d2 d := by
  refine ⟨rfl, ?_⟩
  show ∃ d2 : NativeDecimal, NewFromString d.String = (d2, none) ∧ NativeDecimal.NumEq d2 d
  by_cases h : d.exp ≥ 0
  · obtain ⟨hsd, hsne, hsv, _⟩ := utoa_spec (d.value * 10 ^ d.exp.toNat).natAbs
    have hform : d.String =
        (if decide (d.value * 10 ^ d.exp.toNat < 0) then [(0x2D : Byte)] else []) ++
          (if ([] : GoString).length > 0
            then utoa (d.value * 10 ^ d.exp.toNat).natAbs ++ [(0x2E : Byte)] ++ []
            else utoa (d.value * 10 ^ d.exp.toNat).natAbs) := by
      simp only [NativeDecimal.String, h, if_true, bigIntString]
      by_cases hv : d.value * 10 ^ d.exp.toNat < 0 <;> simp [hv]
    rw [hform, NewFromString_digits _ _ [] hsne hsd rfl rfl (by simp)]
    refine ⟨_, rfl, ?_⟩
    simp only [NativeDecimal.NumEq, List.append_nil, hsv, List.length_nil, Nat.cast_zero,
      neg_zero]
    have hmin : min (0 : Int) d.exp = 0 := min_eq_left h
    rw [hmin]
    simp only [sub_zero, Int.toNat_zero, pow_zero, mul_one]
    by_cases hv : d.value * 10 ^ d.exp.toNat < 0
    · simp only [hv, decide_True, if_true]
      omega
    · simp only [hv, decide_False]
      simp only [Bool.false_eq_true, if_false]
      omega
  · obtain ⟨ip, fp, j, hform, hip, hipd, hfpd, htrim, hlen, hval⟩ := String_neg_exp d (by omega)
    rw [hform, NewFromString_digits _ ip fp hip hipd hfpd htrim (by omega)]
    refine ⟨_, rfl, ?_⟩
    simp only [NativeDecimal.NumEq]
    have hmin : min (-(fp.length : Int)) d.exp = d.exp := min_eq_right (by omega)
    rw [hmin]
    have e1 : (-(fp.length : Int) - d.exp).toNat = j := by omega
    have e2 : (d.exp - d.exp).toNat = 0 := by simp
    rw [e1, e2, pow_zero, mul_one]
    have hcast : ((digitsValue (ip ++ fp) : Int)) * 10 ^ j = (d.value.natAbs : Int) := by
      exact_mod_cast hval
    by_cases hv : d.value < 0
    · simp only [hv, decide_True, if_true, neg_mul, hcast]
      omega
    · simp only [hv, decide_False, Bool.false_eq_true, if_false, hcast]
      omega

set_option maxRecDepth 100000 in
/-- Witness for C16 at the native decimal -1.20 (`value = -120`, `exp = -2`),
whose text is `-1.2` and which reads back as `-12 * 10^-1`. -/
theorem ConvertDecimal_passthrough_witness :
    NativeDecimal.String { value := -120, exp := -2 } = ascii "-1.2" ∧
    (ConvertDecimal { value := -120, exp := -2 }).ConvertDecimal
      = ({ value := -12, exp := -1 }, none) ∧
    (ConvertDecimal { value := -120, exp := -2 }).StringFromDecimal
      = NativeDecimal.String { value := -120, exp := -2 } :=
  ⟨by decide, by decide,
   (ConvertDecimal_passthrough { value := -120, exp := -2 } (by decide) (by decide)).1⟩

/-! ## Timestamp JSON -/

theorem formatInt_rendering (n : Int) : IsDecimalRendering n (formatInt n) := by
  obtain ⟨h1, h2, h3, h4⟩ := utoa_spec n.natAbs
  refine ⟨utoa n.natAbs, h2, h1, ?_, h3, rfl⟩
  intro hh
  by_cases h0 : n.natAbs = 0
  · rw [h0]
    rfl
  · exact absurd hh (h4 h0)

/-- C18: for every DateTime `m`, `m.MarshalJSON()` returns a nil error and the
rendering `{"timestamp": "<formatted-string>","milliseconds": <integer>}`: the
field `timestamp` and then the field `milliseconds`, where `<integer>` is the
base-10 rendering of the raw `m.Milliseconds` (a leading `-` for a negative
value, not reduced to whole seconds) and `<formatted-string>` is the layout
formatting of `m.TimeFromDateTime()`, the instant at `m.Milliseconds / 1000`
seconds (quotient toward zero) and 0 nanoseconds. -/
theorem DateTime_MarshalJSON_spec (Format : Time → GoString) (m : DateTime) :
    m.MarshalJSON Format =
      (timestampJSON (Format m.TimeFromDateTime) (formatInt m.Milliseconds), none) ∧
    IsDecimalRendering m.Milliseconds (formatInt m.Milliseconds) ∧
    m.TimeFromDateTime = { sec := quotTowardZero m.Milliseconds, nsec := 0 } := by
  refine ⟨?_, formatInt_rendering _, ?_⟩
  · simp only [DateTime.MarshalJSON, timestampJSON, List.append_assoc, Prod.mk.injEq, and_true]
    rfl
  · simp only [DateTime.TimeFromDateTime, Unix_zero_nsec, tdiv_eq_quotTowardZero]

set_option maxRecDepth 100000 in
/-- Example for C18 at `Milliseconds = -1500`, with a formatter that renders
the instant at -1 seconds as `Wed Dec 31 23:59:59 UTC 1969` and any other as
the empty string: the bytes returned are
`{"timestamp": "Wed Dec 31 23:59:59 UTC 1969","milliseconds": -1500}`. -/
theorem DateTime_MarshalJSON_spec_witness :
    DateTime.MarshalJSON
        (fun t => if t.sec = -1 ∧ t.nsec = 0 then ascii "Wed Dec 31 23:59:59 UTC 1969" else [])
        { Milliseconds := -1500 }
      = (ascii ("\x7b\x22timestamp\x22: \x22Wed Dec 31 23:59:59 UTC 1969\x22,"
            ++ "\x22milliseconds\x22: -1500\x7d"), none) :=
  (DateTime_MarshalJSON_spec
    (fun t => if t.sec = -1 ∧ t.nsec = 0 then ascii "Wed Dec 31 23:59:59 UTC 1969" else [])
    { Milliseconds := -1500 }).1.trans (by decide)

end Dml
